import Mathlib

/-!
Verification of the cad-to-robot backend core logic.

Two engines are embedded from the Python sources:

* the URDF duplicate-link remover
  (src/augmented_tools/remove_duplicate_links.py and
  src/tools/remove_duplicate_links.py, class URDFDuplicateRemover), and
* the mate renamer
  (src/app/augmented_tools/rename_mates.py and src/app/tools/rename_mates.py,
  class MateRenamer and the agent entry point rename_mates).

XML link/joint elements are modelled structurally (attributes as Option
String, child elements as Option/List of structures); JSON documents are
modelled by a small Json inductive together with operations that mirror the
Python dict/list/str semantics actually exercised by the code (get with
default, membership, indexing, iteration, in-place field update), including
the places where the Python code would raise (AttributeError / TypeError).
-/

namespace CadToRobot

/-! ## Character-level string helpers

Python string operations used by the sources, modelled on `List Char`:
substring membership (`"x" in s`), prefix test (`s.startswith(p)`),
`s.split("/")`, and the code-point lexicographic order used by `sorted`. -/

def listStartsWith : List Char → List Char → Bool
  | [], _ => true
  | _ :: _, [] => false
  | a :: as, b :: bs => a = b && listStartsWith as bs

def listContainsSub (pat : List Char) : List Char → Bool
  | [] => pat.isEmpty
  | c :: rest => listStartsWith pat (c :: rest) || listContainsSub pat rest

def strStartsWith (s pre : String) : Bool := listStartsWith pre.data s.data

def splitSlash : List Char → List (List Char)
  | [] => [[]]
  | c :: rest =>
    let r := splitSlash rest
    if c = '/' then [] :: r
    else
      match r with
      | h :: t => (c :: h) :: t
      | [] => [[c]]

/-- filename.split("/")[-1] if "/" in filename else filename -/
def basename (f : String) : String :=
  if f.data.any (fun c => c = '/') then String.mk ((splitSlash f.data).getLastD []) else f

def listLe : List Char → List Char → Bool
  | [], _ => true
  | _ :: _, [] => false
  | a :: as, b :: bs => if a = b then listLe as bs else decide (a.toNat < b.toNat)

def strLeBool (a b : String) : Bool := listLe a.data b.data

def insertSorted (x : String) : List String → List String
  | [] => [x]
  | y :: ys => if strLeBool x y then x :: y :: ys else y :: insertSorted x ys

/-- Python sorted() on a list of strings (code-point lexicographic order;
equal keys are identical strings, so any correct sort denotes sorted()). -/
def sortStr : List String → List String
  | [] => []
  | x :: xs => insertSorted x (sortStr xs)

/-! ## URDF document model

Structural model of the XML elements read by URDFDuplicateRemover.
Attributes that the code reads with .get are Option String. -/

structure OriginElem where
  xyz : Option String
  rpy : Option String
deriving DecidableEq

structure MeshElem where
  filename : Option String
deriving DecidableEq

structure GeometryElem where
  mesh : Option MeshElem
deriving DecidableEq

structure ColorElem where
  rgba : Option String
deriving DecidableEq

structure MaterialElem where
  color : Option ColorElem
deriving DecidableEq

structure VisualElem where
  origin : Option OriginElem
  geometry : Option GeometryElem
  material : Option MaterialElem
deriving DecidableEq

structure CollisionElem where
  geometry : Option GeometryElem
deriving DecidableEq

structure MassElem where
  value : Option String
deriving DecidableEq

structure InertialElem where
  mass : Option MassElem
deriving DecidableEq

structure LinkElem where
  name : Option String
  visuals : List VisualElem
  collisions : List CollisionElem
  inertial : Option InertialElem
deriving DecidableEq

/-- A parent or child element of a joint, carrying the link attribute. -/
structure JointRef where
  link : Option String
deriving DecidableEq

structure JointElem where
  name : Option String
  parent : Option JointRef
  child : Option JointRef
deriving DecidableEq

structure Robot where
  links : List LinkElem
  joints : List JointElem
deriving DecidableEq

/-- URDFDuplicateRemover.extract_link_info result (dataclass LinkInfo). -/
structure LinkInfo where
  name : String
  mesh_files : List String
  origins : List (String × String)
  materials : List String
  inertial_mass : Option String
deriving DecidableEq

/-! ## extract_link_info -/

def visualOrigin (v : VisualElem) : String × String :=
  match v.origin with
  | some o => (o.xyz.getD "0 0 0", o.rpy.getD "0 0 0")
  | none => ("0 0 0", "0 0 0")

def geometryMeshName (g : Option GeometryElem) : Option String :=
  match g with
  | some ge =>
    match ge.mesh with
    | some me =>
      let filename := me.filename.getD ""
      if filename = "" then none else some (basename filename)
    | none => none
  | none => none

def visualMaterialRgba (v : VisualElem) : Option String :=
  match v.material with
  | some me =>
    match me.color with
    | some ce =>
      let rgba := ce.rgba.getD ""
      if rgba = "" then none else some rgba
    | none => none
  | none => none

/-- The collision loop: append each collision mesh name not already present. -/
def addCollisionMeshes (start : List String) (cs : List CollisionElem) : List String :=
  cs.foldl
    (fun acc c =>
      match geometryMeshName c.geometry with
      | some mn => if acc.contains mn then acc else acc ++ [mn]
      | none => acc)
    start

def extract_link_info (l : LinkElem) : LinkInfo :=
  { name := l.name.getD "unnamed"
    mesh_files :=
      sortStr (addCollisionMeshes
        (l.visuals.filterMap (fun v => geometryMeshName v.geometry)) l.collisions)
    origins := l.visuals.map visualOrigin
    materials := sortStr (l.visuals.filterMap visualMaterialRgba)
    inertial_mass := l.inertial.bind (fun i => i.mass.bind (fun m => m.value)) }

/-! ## find_duplicate_groups -/

abbrev DupKey := List String × List (String × String) × List String

/-- The grouping key (tuple(mesh_files), tuple(origins), tuple(materials)). -/
def linkKey (i : LinkInfo) : DupKey := (i.mesh_files, i.origins, i.materials)

/-- Links with no mesh files are skipped by the grouping loop. -/
def eligible (i : LinkInfo) : Bool := !i.mesh_files.isEmpty

/-- defaultdict(list) append: groups[key].append(link_info), key insertion
order preserved, new keys appended at the end. -/
def insertInfo : List (DupKey × List LinkInfo) → LinkInfo → List (DupKey × List LinkInfo)
  | [], i => [(linkKey i, [i])]
  | (k, g) :: rest, i =>
    if k = linkKey i then (k, g ++ [i]) :: rest
    else (k, g) :: insertInfo rest i

def group_fold (infos : List LinkInfo) : List (DupKey × List LinkInfo) :=
  infos.foldl (fun gs i => if eligible i then insertInfo gs i else gs) []

/-- URDFDuplicateRemover.find_duplicate_groups: group the extracted link
infos by key and keep only the groups with more than one member (the dict
keys str(i) carry no information and are dropped). -/
def find_duplicate_groups (r : Robot) : List (List LinkInfo) :=
  ((group_fold (r.links.map extract_link_info)).map (fun e => e.2)).filter
    (fun g => decide (1 < g.length))

/-! ## remove_links_and_update_joints -/

def linkInSet (links_to_remove : List String) (l : LinkElem) : Bool :=
  match l.name with
  | some n => links_to_remove.contains n
  | none => false

def jointRefName (r : Option JointRef) : Option String :=
  r.bind (fun e => e.link)

/-- parent_link in links_to_remove, with parent_link None when the element
or its link attribute is missing (None is never in a set of strings). -/
def refInSet (links_to_remove : List String) (r : Option JointRef) : Bool :=
  match jointRefName r with
  | some n => links_to_remove.contains n
  | none => false

/-- URDFDuplicateRemover.remove_links_and_update_joints: drop every link
whose name is in the removal set (counting them), then drop every joint
whose parent or child link name is in the removal set. -/
def remove_links_and_update_joints (r : Robot) (links_to_remove : List String) :
    Robot × Nat :=
  (⟨r.links.filter (fun l => !linkInSet links_to_remove l),
    r.joints.filter
      (fun j => !(refInSet links_to_remove j.parent || refInSet links_to_remove j.child))⟩,
   (r.links.filter (fun l => linkInSet links_to_remove l)).length)

/-- Auto mode of the remove_duplicate_links tool: the removal set collects,
for every duplicate group, every member except the first (links[1:]). -/
def auto_links_to_remove (r : Robot) : List String :=
  (find_duplicate_groups r).foldl (fun s g => s ++ (g.drop 1).map (fun i => i.name)) []

/-! ## Grouping characterization -/

/-- The eligible infos of the encounter sequence that carry a given key. -/
def groupForKey (infos : List LinkInfo) (k : DupKey) : List LinkInfo :=
  infos.filter (fun i => eligible i && decide (linkKey i = k))

theorem groupForKey_append_one (p : List LinkInfo) (i : LinkInfo) (k : DupKey) :
    groupForKey (p ++ [i]) k =
      groupForKey p k ++ (if eligible i && decide (linkKey i = k) then [i] else []) := by
  unfold groupForKey
  rw [List.filter_append]
  simp [List.filter]
  split <;> simp_all

def GInv (processed : List LinkInfo) (gs : List (DupKey × List LinkInfo)) : Prop :=
  (gs.map (fun e => e.1)).Nodup ∧
  (∀ e ∈ gs, e.2 = groupForKey processed e.1) ∧
  (∀ i ∈ processed, eligible i = true → linkKey i ∈ gs.map (fun e => e.1))

theorem insertInfo_keys (gs : List (DupKey × List LinkInfo)) (i : LinkInfo) :
    (insertInfo gs i).map (fun e => e.1) =
      (if linkKey i ∈ gs.map (fun e => e.1) then gs.map (fun e => e.1)
       else gs.map (fun e => e.1) ++ [linkKey i]) := by
  induction gs with
  | nil => simp [insertInfo]
  | cons e rest ih =>
    obtain ⟨k, g⟩ := e
    by_cases hk : k = linkKey i
    · subst hk
      simp [insertInfo]
    · simp only [insertInfo, if_neg hk, List.map_cons]
      rw [ih]
      by_cases hmem : linkKey i ∈ rest.map (fun e => e.1) <;>
        simp [hmem, Ne.symm hk, hk]

theorem insertInfo_entries (gs : List (DupKey × List LinkInfo)) (i : LinkInfo)
    (p : List LinkInfo)
    (hnodup : (gs.map (fun e => e.1)).Nodup)
    (hent : ∀ e ∈ gs, e.2 = groupForKey p e.1)
    (hnew : linkKey i ∉ gs.map (fun e => e.1) → groupForKey p (linkKey i) = [])
    (helig : eligible i = true) :
    ∀ e ∈ insertInfo gs i, e.2 = groupForKey (p ++ [i]) e.1 := by
  induction gs with
  | nil =>
    intro e he
    simp only [insertInfo, List.mem_singleton] at he
    subst he
    rw [groupForKey_append_one, hnew (by simp)]
    simp [helig]
  | cons hd rest ih =>
    obtain ⟨k, g⟩ := hd
    by_cases hk : k = linkKey i
    · subst hk
      intro e he
      simp only [insertInfo, if_pos rfl] at he
      rcases List.mem_cons.mp he with h | h
      · subst h
        have hg := hent (linkKey i, g) (by simp)
        simp only at hg
        rw [groupForKey_append_one]
        simp [helig, hg]
      · have hne : e.1 ≠ linkKey i := by
          intro hcontra
          have hkmem : e.1 ∈ rest.map (fun e => e.1) := List.mem_map_of_mem _ h
          simp only [List.map_cons, List.nodup_cons] at hnodup
          exact hnodup.1 (hcontra ▸ hkmem)
        have hg := hent e (List.mem_cons_of_mem _ h)
        rw [groupForKey_append_one]
        simp [Ne.symm hne, hg]
    · intro e he
      simp only [insertInfo, if_neg hk] at he
      rcases List.mem_cons.mp he with h | h
      · subst h
        have hg := hent (k, g) (by simp)
        simp only at hg
        rw [groupForKey_append_one]
        simp [Ne.symm hk, hg]
      · refine ih ?_ ?_ ?_ e h
        · simp only [List.map_cons, List.nodup_cons] at hnodup
          exact hnodup.2
        · intro e' he'
          exact hent e' (List.mem_cons_of_mem _ he')
        · intro hnot
          refine hnew ?_
          simp only [List.map_cons, List.mem_cons]
          rintro (h1 | h2)
          · exact hk h1.symm
          · exact hnot h2

theorem ginv_step (p : List LinkInfo) (gs : List (DupKey × List LinkInfo)) (i : LinkInfo)
    (hinv : GInv p gs) :
    GInv (p ++ [i]) (if eligible i then insertInfo gs i else gs) := by
  obtain ⟨hnodup, hent, hcover⟩ := hinv
  by_cases helig : eligible i = true
  · rw [if_pos helig]
    have hnew : linkKey i ∉ gs.map (fun e => e.1) → groupForKey p (linkKey i) = [] := by
      intro hnot
      unfold groupForKey
      rw [List.filter_eq_nil_iff]
      intro a ha
      simp only [Bool.and_eq_true, decide_eq_true_eq, not_and]
      intro helig' hkey
      exact hnot (hkey ▸ hcover a ha helig')
    refine ⟨?_, ?_, ?_⟩
    · rw [insertInfo_keys]
      by_cases hmem : linkKey i ∈ gs.map (fun e => e.1)
      · simpa [hmem] using hnodup
      · simp only [if_neg hmem]
        exact List.Nodup.append hnodup (List.nodup_singleton _)
          (by simpa using fun h => hmem h)
    · exact insertInfo_entries gs i p hnodup hent hnew helig
    · intro x hx hex
      rw [insertInfo_keys]
      rcases List.mem_append.mp hx with h | h
      · have := hcover x h hex
        by_cases hmem : linkKey i ∈ gs.map (fun e => e.1) <;> simp [hmem, this]
      · simp only [List.mem_singleton] at h
        subst h
        by_cases hmem : linkKey x ∈ gs.map (fun e => e.1) <;> simp [hmem]
  · rw [if_neg helig]
    refine ⟨hnodup, ?_, ?_⟩
    · intro e he
      rw [groupForKey_append_one]
      simp only [Bool.not_eq_true] at helig
      simp [helig, hent e he]
    · intro x hx hex
      rcases List.mem_append.mp hx with h | h
      · exact hcover x h hex
      · simp only [List.mem_singleton] at h
        subst h
        simp [hex] at helig

theorem group_fold_ginv_aux :
    ∀ (xs p : List LinkInfo) (gs : List (DupKey × List LinkInfo)), GInv p gs →
      GInv (p ++ xs) (xs.foldl (fun gs i => if eligible i then insertInfo gs i else gs) gs)
  | [], p, gs, h => by simpa using h
  | x :: xs, p, gs, h => by
    have h1 := ginv_step p gs x h
    have h2 := group_fold_ginv_aux xs (p ++ [x]) _ h1
    simpa using h2

theorem group_fold_ginv (infos : List LinkInfo) : GInv infos (group_fold infos) := by
  have := group_fold_ginv_aux infos [] [] ⟨List.nodup_nil, by simp, by simp⟩
  simpa [group_fold] using this

theorem find_duplicate_groups_char (r : Robot) (g : List LinkInfo)
    (hg : g ∈ find_duplicate_groups r) :
    1 < g.length ∧ ∃ k, g = groupForKey (r.links.map extract_link_info) k := by
  unfold find_duplicate_groups at hg
  rw [List.mem_filter] at hg
  obtain ⟨hmem, hlen⟩ := hg
  rw [List.mem_map] at hmem
  obtain ⟨e, he, hg2⟩ := hmem
  obtain ⟨_, hent, _⟩ := group_fold_ginv (r.links.map extract_link_info)
  exact ⟨by simpa using hlen, e.1, by rw [← hg2, hent e he]⟩

theorem mem_groupForKey (infos : List LinkInfo) (k : DupKey) (a : LinkInfo)
    (ha : a ∈ groupForKey infos k) : a ∈ infos ∧ eligible a = true ∧ linkKey a = k := by
  unfold groupForKey at ha
  rw [List.mem_filter] at ha
  obtain ⟨h1, h2⟩ := ha
  simp only [Bool.and_eq_true, decide_eq_true_eq] at h2
  exact ⟨h1, h2.1, h2.2⟩

theorem eligible_iff (i : LinkInfo) : eligible i = true ↔ i.mesh_files ≠ [] := by
  cases h : i.mesh_files <;> simp [eligible, h]

/-! ## Claims about the duplicate remover -/

/-- C1: on a graph in which every joint's parent and child name an existing
link, remove_links_and_update_joints removes every joint whose parent or
child link name lies in the removal set, and every surviving joint
references only surviving links. -/
theorem c1_remove_and_repair_no_dangling (r : Robot) (links_to_remove : List String)
    (hwf : ∀ j ∈ r.joints,
      (∃ n, jointRefName j.parent = some n ∧ ∃ l ∈ r.links, l.name = some n) ∧
      (∃ n, jointRefName j.child = some n ∧ ∃ l ∈ r.links, l.name = some n)) :
    (∀ j ∈ r.joints,
      (refInSet links_to_remove j.parent || refInSet links_to_remove j.child) = true →
        j ∉ (remove_links_and_update_joints r links_to_remove).1.joints) ∧
    (∀ j ∈ (remove_links_and_update_joints r links_to_remove).1.joints, ∀ n,
      (jointRefName j.parent = some n ∨ jointRefName j.child = some n) →
        ∃ l ∈ (remove_links_and_update_joints r links_to_remove).1.links,
          l.name = some n) := by
  constructor
  · intro j _ hpred hmem
    rw [remove_links_and_update_joints] at hmem
    simp only [List.mem_filter] at hmem
    rw [hpred] at hmem
    simp at hmem
  · intro j hj n hn
    rw [remove_links_and_update_joints] at hj
    simp only [List.mem_filter] at hj
    obtain ⟨hjmem, hkeep⟩ := hj
    simp only [Bool.not_eq_true', Bool.or_eq_false_iff] at hkeep
    obtain ⟨hp, hc⟩ := hkeep
    have hnotin : links_to_remove.contains n = false := by
      rcases hn with h | h
      · simpa [refInSet, h] using hp
      · simpa [refInSet, h] using hc
    have hex : ∃ l ∈ r.links, l.name = some n := by
      obtain ⟨⟨n1, hn1, hl1⟩, ⟨n2, hn2, hl2⟩⟩ := hwf j hjmem
      rcases hn with h | h
      · rw [h] at hn1
        exact (Option.some.inj hn1) ▸ hl1
      · rw [h] at hn2
        exact (Option.some.inj hn2) ▸ hl2
    obtain ⟨l, hl, hname⟩ := hex
    refine ⟨l, ?_, hname⟩
    rw [remove_links_and_update_joints]
    simp only [List.mem_filter]
    have hnotin' : n ∉ links_to_remove := by simpa using hnotin
    exact ⟨hl, by simp [linkInSet, hname, hnotin']⟩

/-- C5: every duplicate group has at least two members, members share the
(mesh files, origins, materials) fingerprint, every eligible link of the
graph whose fingerprint matches a group member is itself in the group, and
no group member has an empty mesh-file list. -/
theorem c5_duplicate_groups_sound_complete (r : Robot) (g : List LinkInfo)
    (hg : g ∈ find_duplicate_groups r) :
    2 ≤ g.length ∧
    (∀ a ∈ g, ∀ b ∈ g,
      a.mesh_files = b.mesh_files ∧ a.origins = b.origins ∧ a.materials = b.materials) ∧
    (∀ l ∈ r.links, (extract_link_info l).mesh_files ≠ [] →
      (∃ a ∈ g, linkKey (extract_link_info l) = linkKey a) → extract_link_info l ∈ g) ∧
    (∀ a ∈ g, a.mesh_files ≠ []) := by
  obtain ⟨hlen, k, hk⟩ := find_duplicate_groups_char r g hg
  subst hk
  refine ⟨by omega, ?_, ?_, ?_⟩
  · intro a ha b hb
    obtain ⟨_, _, hka⟩ := mem_groupForKey _ _ _ ha
    obtain ⟨_, _, hkb⟩ := mem_groupForKey _ _ _ hb
    have : linkKey a = linkKey b := hka.trans hkb.symm
    unfold linkKey at this
    exact ⟨congrArg Prod.fst this,
      congrArg Prod.fst (congrArg Prod.snd this),
      congrArg Prod.snd (congrArg Prod.snd this)⟩
  · intro l hl hne ⟨a, ha, hkey⟩
    obtain ⟨_, _, hka⟩ := mem_groupForKey _ _ _ ha
    unfold groupForKey
    rw [List.mem_filter]
    refine ⟨List.mem_map_of_mem _ hl, ?_⟩
    simp only [Bool.and_eq_true, decide_eq_true_eq]
    exact ⟨(eligible_iff _).mpr hne, hkey.trans hka⟩
  · intro a ha
    obtain ⟨_, he, _⟩ := mem_groupForKey _ _ _ ha
    exact (eligible_iff _).mp he

theorem mem_removal_fold (f : List LinkInfo → List String) :
    ∀ (gs : List (List LinkInfo)) (s : List String) (n : String),
      (n ∈ gs.foldl (fun acc g => acc ++ f g) s) ↔ (n ∈ s ∨ ∃ g ∈ gs, n ∈ f g)
  | [], s, n => by simp
  | g :: gs, s, n => by
    rw [List.foldl_cons, mem_removal_fold f gs (s ++ f g) n]
    simp only [List.mem_append, List.mem_cons]
    constructor
    · rintro ((h | h) | ⟨g', hg', h⟩)
      · exact Or.inl h
      · exact Or.inr ⟨g, Or.inl rfl, h⟩
      · exact Or.inr ⟨g', Or.inr hg', h⟩
    · rintro (h | ⟨g', (rfl | hg'), h⟩)
      · exact Or.inl (Or.inl h)
      · exact Or.inl (Or.inr h)
      · exact Or.inr ⟨g', hg', h⟩

/-- C6: every duplicate group lists its links in the order they occur in the
link sequence (it is the filter of the extracted-info sequence by the group
key, so its head is the first-encountered member, the kept representative),
and the automatic removal set contains exactly the names of non-first
members of groups. -/
theorem c6_insertion_order_and_removal_set (r : Robot) :
    (∀ g ∈ find_duplicate_groups r,
      g.Sublist (r.links.map extract_link_info) ∧
      ∃ k, g = groupForKey (r.links.map extract_link_info) k) ∧
    (∀ n, n ∈ auto_links_to_remove r ↔
      ∃ g ∈ find_duplicate_groups r, ∃ i ∈ g.drop 1, i.name = n) := by
  constructor
  · intro g hg
    obtain ⟨_, k, hk⟩ := find_duplicate_groups_char r g hg
    exact ⟨hk ▸ List.filter_sublist _, k, hk⟩
  · intro n
    unfold auto_links_to_remove
    rw [mem_removal_fold]
    simp only [List.not_mem_nil, false_or, List.mem_map]

theorem filter_partition_length {α : Type} (p : α → Bool) (l : List α) :
    (l.filter p).length + (l.filter (fun a => !p a)).length = l.length := by
  induction l with
  | nil => rfl
  | cons a l ih =>
    cases h : p a <;> simp [List.filter_cons, h] <;> omega

/-- C10: in explicit-removal mode a supplied name that matches no link is
silently ignored: the surviving links and the removed-link count are the
same as if the name had not been supplied (the count counts only links
actually deleted), while every joint whose parent or child carries that
name is still removed. -/
theorem c10_ghost_names_ignored (r : Robot) (links_to_remove : List String) (n : String)
    (hmem : n ∈ links_to_remove)
    (hghost : ∀ l ∈ r.links, l.name ≠ some n) :
    ((remove_links_and_update_joints r links_to_remove).1.links
      = (remove_links_and_update_joints r
          (links_to_remove.filter (fun x => decide (x ≠ n)))).1.links) ∧
    ((remove_links_and_update_joints r links_to_remove).2
      = (remove_links_and_update_joints r
          (links_to_remove.filter (fun x => decide (x ≠ n)))).2) ∧
    ((remove_links_and_update_joints r links_to_remove).2
      + (remove_links_and_update_joints r links_to_remove).1.links.length
      = r.links.length) ∧
    (∀ j ∈ r.joints,
      (jointRefName j.parent = some n ∨ jointRefName j.child = some n) →
        j ∉ (remove_links_and_update_joints r links_to_remove).1.joints) := by
  have hsame : ∀ l ∈ r.links,
      linkInSet links_to_remove l
        = linkInSet (links_to_remove.filter (fun x => decide (x ≠ n))) l := by
    intro l hl
    unfold linkInSet
    cases hname : l.name with
    | none => rfl
    | some m =>
      have hm : m ≠ n := by
        intro hcontra
        exact hghost l hl (by rw [hname, hcontra])
      show links_to_remove.elem m
        = (links_to_remove.filter (fun x => decide (x ≠ n))).elem m
      rw [List.elem_eq_mem, List.elem_eq_mem, decide_eq_decide, List.mem_filter]
      simp [hm]
  refine ⟨?_, ?_, ?_, ?_⟩
  · rw [remove_links_and_update_joints, remove_links_and_update_joints]
    exact List.filter_congr (fun l hl => by rw [hsame l hl])
  · rw [remove_links_and_update_joints, remove_links_and_update_joints]
    simp only
    rw [List.filter_congr (fun l hl => hsame l hl)]
  · show (r.links.filter (fun l => linkInSet links_to_remove l)).length
      + (r.links.filter (fun l => !linkInSet links_to_remove l)).length = r.links.length
    exact filter_partition_length _ _
  · intro j _ hn hmem2
    rw [remove_links_and_update_joints] at hmem2
    simp only [List.mem_filter] at hmem2
    obtain ⟨_, hkeep⟩ := hmem2
    have hor : (refInSet links_to_remove j.parent || refInSet links_to_remove j.child) = true := by
      rcases hn with h | h
      · have hp : refInSet links_to_remove j.parent = true := by
          simp [refInSet, h, hmem]
        simp [hp]
      · have hc : refInSet links_to_remove j.child = true := by
          simp [refInSet, h, hmem]
        simp [hc]
    rw [hor] at hkeep
    simp at hkeep

/-! ## Concrete URDF fixtures for the witnesses -/

def visWheel : VisualElem :=
  { origin := none
    geometry := some { mesh := some { filename := some "package://meshes/wheel.stl" } }
    material := none }

def visBase : VisualElem :=
  { origin := some { xyz := some "0 0 1", rpy := none }
    geometry := some { mesh := some { filename := some "base.stl" } }
    material := some { color := some { rgba := some "1 0 0 1" } } }

def baseLink : LinkElem :=
  { name := some "base_link", visuals := [visBase], collisions := [], inertial := none }

def wheelOne : LinkElem :=
  { name := some "wheel_1", visuals := [visWheel], collisions := [], inertial := none }

def wheelTwo : LinkElem :=
  { name := some "wheel_2", visuals := [visWheel], collisions := [], inertial := none }

def jointBaseWheel : JointElem :=
  { name := some "j1", parent := some { link := some "base_link" }
    child := some { link := some "wheel_1" } }

def jointWheelWheel : JointElem :=
  { name := some "j2", parent := some { link := some "wheel_1" }
    child := some { link := some "wheel_2" } }

def robotEx : Robot :=
  { links := [baseLink, wheelOne, wheelTwo], joints := [jointBaseWheel, jointWheelWheel] }

def ghostJoint : JointElem :=
  { name := some "jg", parent := some { link := some "base_link" }
    child := some { link := some "ghost" } }

def robotGhost : Robot := { links := [baseLink], joints := [ghostJoint] }

example : find_duplicate_groups robotEx
    = [[extract_link_info wheelOne, extract_link_info wheelTwo]] := by decide
example : auto_links_to_remove robotEx = ["wheel_2"] := by decide

/-- Witness for C1 at a concrete robot and removal set. -/
theorem c1_witness :
    jointWheelWheel ∉ (remove_links_and_update_joints robotEx ["wheel_2"]).1.joints :=
  (c1_remove_and_repair_no_dangling robotEx ["wheel_2"]
    (by
      intro j hj
      simp only [robotEx, List.mem_cons, List.not_mem_nil, or_false] at hj
      rcases hj with rfl | rfl
      · exact ⟨⟨"base_link", rfl, baseLink, by decide, rfl⟩,
          ⟨"wheel_1", rfl, wheelOne, by decide, rfl⟩⟩
      · exact ⟨⟨"wheel_1", rfl, wheelOne, by decide, rfl⟩,
          ⟨"wheel_2", rfl, wheelTwo, by decide, rfl⟩⟩)).1
    jointWheelWheel (by decide) (by decide)

/-- Witness for C5 at a concrete robot with one duplicate pair. -/
theorem c5_witness :
    [extract_link_info wheelOne, extract_link_info wheelTwo] ∈ find_duplicate_groups robotEx
    ∧ 2 ≤ ([extract_link_info wheelOne, extract_link_info wheelTwo] : List LinkInfo).length :=
  ⟨by decide, (c5_duplicate_groups_sound_complete robotEx _ (by decide)).1⟩

/-- Witness for C6 at a concrete robot: the duplicate wheel is in the
automatic removal set. -/
theorem c6_witness : "wheel_2" ∈ auto_links_to_remove robotEx :=
  ((c6_insertion_order_and_removal_set robotEx).2 "wheel_2").mpr (by decide)

/-- Witness for C10 at a robot whose joint references a link that does not
exist: removing that ghost name still removes the joint. -/
theorem c10_witness :
    ghostJoint ∉ (remove_links_and_update_joints robotGhost ["ghost"]).1.joints :=
  (c10_ghost_names_ignored robotGhost ["ghost"] "ghost" (by decide)
    (by decide)).2.2.2 ghostJoint (by decide) (Or.inr rfl)

/-! ## JSON document model for the mate renamer

The three robot JSON documents are modelled by a small Json type. The
operations below mirror exactly the Python dict/list/str behaviour the
MateRenamer code exercises, including the exceptions it can raise:
.get on a non-dict raises AttributeError; `key in x` on a number raises
TypeError; x[str] on a list or string raises TypeError; hashing a list or
dict (Counter update, dict-key membership) raises TypeError. -/

inductive Json where
  | null
  | bool (b : Bool)
  | num (n : Int)
  | str (s : String)
  | arr (elems : List Json)
  | obj (fields : List (String × Json))

inductive PyErr where
  | attributeError
  | typeError
deriving DecidableEq

/-- Python truthiness of a JSON value. -/
def pyTruthy : Json → Bool
  | .null => false
  | .bool b => b
  | .num n => decide (n ≠ 0)
  | .str s => decide (s ≠ "")
  | .arr xs => !xs.isEmpty
  | .obj fs => !fs.isEmpty

/-- Dict lookup (first binding wins; json.load never produces duplicates). -/
def lookupField : List (String × Json) → String → Option Json
  | [], _ => none
  | (k, v) :: rest, key => if k = key then some v else lookupField rest key

/-- Dict assignment: replace the binding in place, or append a new one. -/
def setField : List (String × Json) → String → Json → List (String × Json)
  | [], key, v => [(key, v)]
  | (k, w) :: rest, key, v =>
    if k = key then (key, v) :: rest else (k, w) :: setField rest key v

/-- Python == between a JSON value and a string literal. -/
def jsonEqStr : Json → String → Bool
  | .str s, t => s = t
  | _, _ => false

/-- Python `key in x` for the shapes it does not raise on: dict key
membership, list membership, substring test; TypeError otherwise. -/
def pyInCheck (key : String) : Json → Except PyErr Bool
  | .obj fs => .ok (lookupField fs key).isSome
  | .arr xs => .ok (xs.any (fun e => jsonEqStr e key))
  | .str s => .ok (listContainsSub key.data s.data)
  | _ => .error .typeError

/-- Python iteration: lists yield elements, dicts yield their keys,
strings yield one-character strings; TypeError otherwise. -/
def pyIter : Json → Except PyErr (List Json)
  | .arr xs => .ok xs
  | .obj fs => .ok (fs.map (fun p => Json.str p.1))
  | .str s => .ok (s.data.map (fun c => Json.str (String.mk [c])))
  | _ => .error .typeError

abbrev RenameMap := List (String × String)

def rmLookup : RenameMap → String → Option String
  | [], _ => none
  | (k, v) :: rest, key => if k = key then some v else rmLookup rest key

/-! ## apply_renames (src/app/augmented_tools/rename_mates.py lines 83-125) -/

/-- One matevalues entry: if "mateName" in mate and mate["mateName"] in
rename_map, set mate["mateName"] to the new name and count one change. -/
def renameMateEntry (m : RenameMap) (mate : Json) : Except PyErr (Json × Nat) := do
  let b ← pyInCheck "mateName" mate
  if b then
    match mate with
    | .obj fs =>
      match lookupField fs "mateName" with
      | some (.str s) =>
        match rmLookup m s with
        | some nw => .ok (.obj (setField fs "mateName" (.str nw)), 1)
        | none => .ok (mate, 0)
      | some (.arr _) => .error .typeError
      | some (.obj _) => .error .typeError
      | some _ => .ok (mate, 0)
      | none => .ok (mate, 0)
    | _ => .error .typeError
  else .ok (mate, 0)

/-- One features entry: message = feature.get("message", {}); rename
message["name"] when featureType is "mate" and the name is in the map.
There is no "Fastened 1" exclusion here (it exists only in extraction). -/
def renameFeatureEntry (m : RenameMap) (feature : Json) : Except PyErr (Json × Nat) :=
  match feature with
  | .obj fs =>
    match (lookupField fs "message").getD (.obj []) with
    | .obj ms =>
      if jsonEqStr ((lookupField ms "featureType").getD .null) "mate" then
        match lookupField ms "name" with
        | some (.str s) =>
          match rmLookup m s with
          | some nw =>
            .ok (.obj (setField fs "message" (.obj (setField ms "name" (.str nw)))), 1)
          | none => .ok (feature, 0)
        | some (.arr _) => .error .typeError
        | some (.obj _) => .error .typeError
        | some _ => .ok (feature, 0)
        | none => .ok (feature, 0)
      else .ok (feature, 0)
    | _ => .error .attributeError
  | _ => .error .attributeError

/-- One assembly entry: feature_data = feature.get("featureData", {});
rename feature_data["name"] when present and in the map. No dof_/legacy
filtering here (it exists only in extraction). -/
def renameAssemblyEntry (m : RenameMap) (feature : Json) : Except PyErr (Json × Nat) :=
  match feature with
  | .obj fs => do
    let fd := (lookupField fs "featureData").getD (.obj [])
    let b ← pyInCheck "name" fd
    if b then
      match fd with
      | .obj ds =>
        match lookupField ds "name" with
        | some (.str s) =>
          match rmLookup m s with
          | some nw =>
            .ok (.obj (setField fs "featureData" (.obj (setField ds "name" (.str nw)))), 1)
          | none => .ok (feature, 0)
        | some (.arr _) => .error .typeError
        | some (.obj _) => .error .typeError
        | some _ => .ok (feature, 0)
        | none => .ok (feature, 0)
      | _ => .error .typeError
    else .ok (feature, 0)
  | _ => .error .attributeError

/-- The for-loop over entries: mutation is in place, so a raised exception
keeps the already-processed prefix mutated and stops the iteration. -/
def renameEntriesFold (step : Json → Except PyErr (Json × Nat)) :
    List Json → List Json × Nat × Option PyErr
  | [] => ([], 0, none)
  | e :: rest =>
    match step e with
    | .error pe => (e :: rest, 0, some pe)
    | .ok (e1, c) =>
      let (rest1, c2, err) := renameEntriesFold step rest
      (e1 :: rest1, c + c2, err)

/-- Shared shape of the matevalues and features blocks: if the document is
truthy, iterate doc.get(field, []) applying the per-entry mutation. -/
def renameDocField (step : Json → Except PyErr (Json × Nat)) (field : String)
    (j : Json) : Json × Nat × Option PyErr :=
  if pyTruthy j then
    match j with
    | .obj fs =>
      match lookupField fs field with
      | none => (j, 0, none)
      | some v =>
        match pyIter v with
        | .error pe => (j, 0, some pe)
        | .ok items =>
          let (items1, c, err) := renameEntriesFold step items
          match v with
          | .arr _ => (.obj (setField fs field (.arr items1)), c, err)
          | _ => (j, c, err)
    | _ => (j, 0, some .attributeError)
  else (j, 0, none)

def renameMateValuesDoc (m : RenameMap) (j : Json) : Json × Nat × Option PyErr :=
  renameDocField (renameMateEntry m) "mateValues" j

def renameFeaturesDoc (m : RenameMap) (j : Json) : Json × Nat × Option PyErr :=
  renameDocField (renameFeatureEntry m) "features" j

/-- The assembly block: root_assembly = data.get("rootAssembly", {}), then
iterate root_assembly.get("features", []). -/
def renameAssemblyDoc (m : RenameMap) (j : Json) : Json × Nat × Option PyErr :=
  if pyTruthy j then
    match j with
    | .obj fs =>
      match (lookupField fs "rootAssembly").getD (.obj []) with
      | .obj rs =>
        match lookupField rs "features" with
        | none => (j, 0, none)
        | some v =>
          match pyIter v with
          | .error pe => (j, 0, some pe)
          | .ok items =>
            let (items1, c, err) := renameEntriesFold (renameAssemblyEntry m) items
            match v with
            | .arr _ =>
              (.obj (setField fs "rootAssembly"
                (.obj (setField rs "features" (.arr items1)))), c, err)
            | _ => (j, c, err)
      | _ => (j, 0, some .attributeError)
    | _ => (j, 0, some .attributeError)
  else (j, 0, none)

structure Docs where
  mv : Json
  ft : Json
  asm : Json

structure ApplyResult where
  docs : Docs
  cmv : Nat
  cft : Nat
  casm : Nat
  err : Option PyErr

/-- MateRenamer.apply_renames: mutate matevalues, then features, then
assembly, in place; an exception stops the sequence but earlier in-memory
mutations persist. -/
def apply_renames (m : RenameMap) (d : Docs) : ApplyResult :=
  let (mv1, c1, e1) := renameMateValuesDoc m d.mv
  match e1 with
  | some pe => ⟨⟨mv1, d.ft, d.asm⟩, c1, 0, 0, some pe⟩
  | none =>
    let (ft1, c2, e2) := renameFeaturesDoc m d.ft
    match e2 with
    | some pe => ⟨⟨mv1, ft1, d.asm⟩, c1, c2, 0, some pe⟩
    | none =>
      let (asm1, c3, e3) := renameAssemblyDoc m d.asm
      ⟨⟨mv1, ft1, asm1⟩, c1, c2, c3, e3⟩

/-! ## extract_mate_names (lines 47-81) -/

/-- One matevalues entry of extraction; a non-string name is recorded by
the Python Counter but can never equal a (string) rename key, so only
string names are collected; unhashable names raise TypeError. -/
def extractMateEntry (mate : Json) : Except PyErr (Option String) := do
  let b ← pyInCheck "mateName" mate
  if b then
    match mate with
    | .obj fs =>
      match lookupField fs "mateName" with
      | some (.str s) => .ok (some s)
      | some (.arr _) => .error .typeError
      | some (.obj _) => .error .typeError
      | some _ => .ok none
      | none => .ok none
    | _ => .error .typeError
  else .ok none

/-- One features entry of extraction, skipping the fixed name "Fastened 1". -/
def extractFeatureEntry (feature : Json) : Except PyErr (Option String) :=
  match feature with
  | .obj fs =>
    match (lookupField fs "message").getD (.obj []) with
    | .obj ms =>
      if jsonEqStr ((lookupField ms "featureType").getD .null) "mate" then
        match lookupField ms "name" with
        | some (.str s) => .ok (if s = "Fastened 1" then none else some s)
        | some (.arr _) => .error .typeError
        | some (.obj _) => .error .typeError
        | some _ => .ok none
        | none => .ok none
      else .ok none
    | _ => .error .attributeError
  | _ => .error .attributeError

/-- One assembly entry of extraction: only names with the dof_ marker or
the legacy name "Planar 1" are collected; name.startswith on a non-string
raises AttributeError. -/
def extractAssemblyEntry (feature : Json) : Except PyErr (Option String) :=
  match feature with
  | .obj fs => do
    let fd := (lookupField fs "featureData").getD (.obj [])
    let b ← pyInCheck "name" fd
    if b then
      match fd with
      | .obj ds =>
        match lookupField ds "name" with
        | some (.str s) =>
          .ok (if strStartsWith s "dof_" || s = "Planar 1" then some s else none)
        | some _ => .error .attributeError
        | none => .ok none
      | _ => .error .typeError
    else .ok none
  | _ => .error .attributeError

def extractEntriesFold (step : Json → Except PyErr (Option String)) :
    List Json → Except PyErr (List String)
  | [] => .ok []
  | e :: rest => do
    let r ← step e
    let rs ← extractEntriesFold step rest
    match r with
    | some s => .ok (s :: rs)
    | none => .ok rs

def extractDocNames (step : Json → Except PyErr (Option String)) (field : String)
    (j : Json) : Except PyErr (List String) :=
  if pyTruthy j then
    match j with
    | .obj fs =>
      match lookupField fs field with
      | none => .ok []
      | some v => do
        let items ← pyIter v
        extractEntriesFold step items
    | _ => .error .attributeError
  else .ok []

def extractAssemblyNames (j : Json) : Except PyErr (List String) :=
  if pyTruthy j then
    match j with
    | .obj fs =>
      match (lookupField fs "rootAssembly").getD (.obj []) with
      | .obj rs =>
        match lookupField rs "features" with
        | none => .ok []
        | some v => do
          let items ← pyIter v
          extractEntriesFold extractAssemblyEntry items
      | _ => .error .attributeError
    | _ => .error .attributeError
  else .ok []

/-- MateRenamer.extract_mate_names over the three documents, in order. -/
def extract_mate_names (d : Docs) :
    Except PyErr (List String × List String × List String) := do
  let n1 ← extractDocNames extractMateEntry "mateValues" d.mv
  let n2 ← extractDocNames extractFeatureEntry "features" d.ft
  let n3 ← extractAssemblyNames d.asm
  .ok (n1, n2, n3)

/-! ## The rename_mates tool (lines 159-246) -/

/-- The three document files and their backup files on disk; file contents
are stored parsed (json.dump then json.load round-trips the value). -/
structure RenameFS where
  mv : Option Json
  ft : Option Json
  asm : Option Json
  mvBackup : Option Json
  ftBackup : Option Json
  asmBackup : Option Json

inductive ToolErr where
  | fileNotFound
  | pyErr (e : PyErr)
  | unknownIdentifier (names : List String)

/-- MateRenamer.load_files: open the three files in order; the first
missing file raises FileNotFoundError. -/
def load_files (fs : RenameFS) : Except ToolErr Docs :=
  match fs.mv with
  | none => .error .fileNotFound
  | some mv =>
    match fs.ft with
    | none => .error .fileNotFound
    | some ft =>
      match fs.asm with
      | none => .error .fileNotFound
      | some asm => .ok ⟨mv, ft, asm⟩

/-- MateRenamer.create_backups: copy each existing file to its backup. -/
def create_backups (fs : RenameFS) : RenameFS :=
  { fs with
    mvBackup := if fs.mv.isSome then fs.mv else fs.mvBackup
    ftBackup := if fs.ft.isSome then fs.ft else fs.ftBackup
    asmBackup := if fs.asm.isSome then fs.asm else fs.asmBackup }

/-- MateRenamer.save_files: write back each truthy in-memory document. -/
def save_files (fs : RenameFS) (d : Docs) : RenameFS :=
  { fs with
    mv := if pyTruthy d.mv then some d.mv else fs.mv
    ft := if pyTruthy d.ft then some d.ft else fs.ft
    asm := if pyTruthy d.asm then some d.asm else fs.asm }

/-- The rename_mates function tool: load, extract, validate the rename-map
keys against the union of extracted names, back up, apply, save. A missing
key aborts before any backup or mutation; an exception during apply aborts
before any save. -/
def rename_mates (fs : RenameFS) (m : RenameMap) :
    RenameFS × Except ToolErr (Nat × Nat × Nat) :=
  match load_files fs with
  | .error e => (fs, .error e)
  | .ok d =>
    match extract_mate_names d with
    | .error pe => (fs, .error (.pyErr pe))
    | .ok (n1, n2, n3) =>
      let missing := (m.map (fun p => p.1)).filter
        (fun k => !(n1.contains k || n2.contains k || n3.contains k))
      if missing.isEmpty then
        let fs1 := create_backups fs
        let r := apply_renames m d
        match r.err with
        | some pe => (fs1, .error (.pyErr pe))
        | none => (save_files fs1 r.docs, .ok (r.cmv, r.cft, r.casm))
      else (fs, .error (.unknownIdentifier missing))

/-! ## Observations and well-formedness

Observation functions collecting, per document, every identifier
occurrence that apply_renames can touch (no extraction-scope filtering),
and decidable well-formedness predicates describing the JSON shapes on
which the Python code runs without raising. -/

def entryMvName : Json → Option String
  | .obj fs =>
    match lookupField fs "mateName" with
    | some (.str s) => some s
    | _ => none
  | _ => none

def rawMvNames : Json → List String
  | .obj fs =>
    match lookupField fs "mateValues" with
    | some (.arr xs) => xs.filterMap entryMvName
    | _ => []
  | _ => []

def entryFtName : Json → Option String
  | .obj fs =>
    match (lookupField fs "message").getD (.obj []) with
    | .obj ms =>
      if jsonEqStr ((lookupField ms "featureType").getD .null) "mate" then
        match lookupField ms "name" with
        | some (.str s) => some s
        | _ => none
      else none
    | _ => none
  | _ => none

def rawFtNames : Json → List String
  | .obj fs =>
    match lookupField fs "features" with
    | some (.arr xs) => xs.filterMap entryFtName
    | _ => []
  | _ => []

def entryAsmName : Json → Option String
  | .obj fs =>
    match (lookupField fs "featureData").getD (.obj []) with
    | .obj ds =>
      match lookupField ds "name" with
      | some (.str s) => some s
      | _ => none
    | _ => none
  | _ => none

def rawAsmNames : Json → List String
  | .obj fs =>
    match (lookupField fs "rootAssembly").getD (.obj []) with
    | .obj rs =>
      match lookupField rs "features" with
      | some (.arr xs) => xs.filterMap entryAsmName
      | _ => []
    | _ => []
  | _ => []

def rawNames (d : Docs) : List String :=
  rawMvNames d.mv ++ rawFtNames d.ft ++ rawAsmNames d.asm

def wfMateEntry : Json → Bool
  | .obj fs =>
    match lookupField fs "mateName" with
    | some (.str _) => true
    | none => true
    | _ => false
  | _ => false

def wfMateValuesDoc (j : Json) : Bool :=
  if pyTruthy j then
    match j with
    | .obj fs =>
      match lookupField fs "mateValues" with
      | none => true
      | some (.arr xs) => xs.all wfMateEntry
      | some _ => false
    | _ => false
  else true

def wfFeatureEntry : Json → Bool
  | .obj fs =>
    match (lookupField fs "message").getD (.obj []) with
    | .obj ms =>
      match lookupField ms "name" with
      | some (.str _) => true
      | none => true
      | _ => false
    | _ => false
  | _ => false

def wfFeaturesDoc (j : Json) : Bool :=
  if pyTruthy j then
    match j with
    | .obj fs =>
      match lookupField fs "features" with
      | none => true
      | some (.arr xs) => xs.all wfFeatureEntry
      | some _ => false
    | _ => false
  else true

def wfAssemblyEntry : Json → Bool
  | .obj fs =>
    match (lookupField fs "featureData").getD (.obj []) with
    | .obj ds =>
      match lookupField ds "name" with
      | some (.str _) => true
      | none => true
      | _ => false
    | _ => false
  | _ => false

def wfAssemblyDoc (j : Json) : Bool :=
  if pyTruthy j then
    match j with
    | .obj fs =>
      match (lookupField fs "rootAssembly").getD (.obj []) with
      | .obj rs =>
        match lookupField rs "features" with
        | none => true
        | some (.arr xs) => xs.all wfAssemblyEntry
        | some _ => false
      | _ => false
    | _ => false
  else true

def wfDocs (d : Docs) : Bool :=
  wfMateValuesDoc d.mv && wfFeaturesDoc d.ft && wfAssemblyDoc d.asm

/-- The name an in-scope occurrence ends with: the mapped value for keys of
the rename map, unchanged otherwise. -/
def applyName (m : RenameMap) (s : String) : String := (rmLookup m s).getD s

def isRenamed (m : RenameMap) (s : String) : Bool := (rmLookup m s).isSome

/-- The inverse rename map (new name back to old name). -/
def invMap (m : RenameMap) : RenameMap := m.map (fun p => (p.2, p.1))

/-! ## Dict-update lemmas -/

theorem lookupField_setField_self (fs : List (String × Json)) (k : String) (v : Json) :
    lookupField (setField fs k v) k = some v := by
  induction fs with
  | nil => simp [setField, lookupField]
  | cons p rest ih =>
    obtain ⟨k1, w⟩ := p
    by_cases h : k1 = k
    · subst h
      simp [setField, lookupField]
    · simp [setField, lookupField, h, ih]

theorem lookupField_setField_other (fs : List (String × Json)) (k k2 : String) (v : Json)
    (h : k2 ≠ k) : lookupField (setField fs k v) k2 = lookupField fs k2 := by
  induction fs with
  | nil => simp [setField, lookupField, Ne.symm h]
  | cons p rest ih =>
    obtain ⟨k1, w⟩ := p
    by_cases h1 : k1 = k
    · subst h1
      simp [setField, lookupField, Ne.symm h]
    · simp only [setField, if_neg h1, lookupField]
      by_cases h2 : k1 = k2 <;> simp [h2, ih]

theorem setField_restore (fs : List (String × Json)) (k : String) (v0 v1 : Json)
    (h : lookupField fs k = some v0) : setField (setField fs k v1) k v0 = fs := by
  induction fs with
  | nil => simp [lookupField] at h
  | cons p rest ih =>
    obtain ⟨k1, w⟩ := p
    by_cases h1 : k1 = k
    · subst h1
      have hw : w = v0 := by simpa [lookupField] using h
      subst hw
      simp [setField]
    · simp only [lookupField, if_neg h1] at h
      simp [setField, h1, ih h]

theorem setField_ne_nil (fs : List (String × Json)) (k : String) (v : Json) :
    setField fs k v ≠ [] := by
  cases fs with
  | nil => simp [setField]
  | cons p rest =>
    obtain ⟨k1, w⟩ := p
    by_cases h : k1 = k <;> simp [setField, h]

/-! ## Rename-map lemmas -/

theorem rmLookup_mem (m : RenameMap) (s v : String) (h : rmLookup m s = some v) :
    (s, v) ∈ m := by
  induction m with
  | nil => simp [rmLookup] at h
  | cons p rest ih =>
    obtain ⟨k, w⟩ := p
    by_cases hk : k = s
    · subst hk
      have : w = v := by simpa [rmLookup] using h
      subst this
      exact List.mem_cons_self _ _
    · simp only [rmLookup, if_neg hk] at h
      exact List.mem_cons_of_mem _ (ih h)

theorem rmLookup_invMap_of_mem (m : RenameMap) (s v : String)
    (hvals : (m.map (fun p => p.2)).Nodup) (hmem : (s, v) ∈ m) :
    rmLookup (invMap m) v = some s := by
  induction m with
  | nil => simp at hmem
  | cons p rest ih =>
    obtain ⟨a, b⟩ := p
    simp only [List.map_cons, List.nodup_cons] at hvals
    rcases List.mem_cons.mp hmem with h | h
    · obtain ⟨rfl, rfl⟩ := Prod.mk.injEq .. ▸ h
      simp [invMap, rmLookup]
    · have hbv : b ≠ v := by
        intro hcontra
        subst hcontra
        exact hvals.1 (List.mem_map_of_mem (fun p => p.2) h)
      simp only [invMap, List.map_cons, rmLookup, if_neg hbv]
      exact ih hvals.2 h

theorem rmLookup_invMap_none (m : RenameMap) (s : String)
    (h : s ∉ m.map (fun p => p.2)) : rmLookup (invMap m) s = none := by
  induction m with
  | nil => rfl
  | cons p rest ih =>
    obtain ⟨a, b⟩ := p
    simp only [List.map_cons, List.mem_cons, not_or] at h
    rw [show invMap ((a, b) :: rest) = (b, a) :: invMap rest from rfl]
    simp only [rmLookup]
    rw [if_neg (fun hc => h.1 hc.symm)]
    exact ih h.2

theorem except_bind_ok {α β : Type} (a : α) (f : α → Except PyErr β) :
    (Except.ok (ε := PyErr) a >>= f) = f a := rfl

/-! ## Per-entry characterization of apply_renames -/

def mvEntryApply (m : RenameMap) : Json → Json
  | .obj fs =>
    match lookupField fs "mateName" with
    | some (.str s) =>
      match rmLookup m s with
      | some nw => .obj (setField fs "mateName" (.str nw))
      | none => .obj fs
    | _ => .obj fs
  | e => e

def mvEntryCount (m : RenameMap) (e : Json) : Nat :=
  match entryMvName e with
  | some s => if isRenamed m s then 1 else 0
  | none => 0

theorem renameMateEntry_eq (m : RenameMap) (e : Json) (h : wfMateEntry e = true) :
    renameMateEntry m e = .ok (mvEntryApply m e, mvEntryCount m e) := by
  cases e with
  | obj fs =>
    cases hlk : lookupField fs "mateName" with
    | none =>
      simp [renameMateEntry, pyInCheck, except_bind_ok, hlk, mvEntryApply, mvEntryCount, entryMvName]
    | some v =>
      cases v with
      | str s =>
        cases hrm : rmLookup m s with
        | none =>
          simp [renameMateEntry, pyInCheck, except_bind_ok, hlk, hrm, mvEntryApply, mvEntryCount,
            entryMvName, isRenamed]
        | some nw =>
          simp [renameMateEntry, pyInCheck, except_bind_ok, hlk, hrm, mvEntryApply, mvEntryCount,
            entryMvName, isRenamed]
      | arr xs => simp [wfMateEntry, hlk] at h
      | obj gs => simp [wfMateEntry, hlk] at h
      | null =>
        simp [renameMateEntry, pyInCheck, except_bind_ok, hlk, mvEntryApply, mvEntryCount, entryMvName]
      | bool b =>
        simp [renameMateEntry, pyInCheck, except_bind_ok, hlk, mvEntryApply, mvEntryCount, entryMvName]
      | num n =>
        simp [renameMateEntry, pyInCheck, except_bind_ok, hlk, mvEntryApply, mvEntryCount, entryMvName]
  | null => simp [wfMateEntry] at h
  | bool b => simp [wfMateEntry] at h
  | num n => simp [wfMateEntry] at h
  | str s => simp [wfMateEntry] at h
  | arr xs => simp [wfMateEntry] at h

theorem entryMvName_apply (m : RenameMap) (e : Json) :
    entryMvName (mvEntryApply m e) = (entryMvName e).map (applyName m) := by
  cases e with
  | obj fs =>
    cases hlk : lookupField fs "mateName" with
    | none => simp [mvEntryApply, entryMvName, hlk]
    | some v =>
      cases v with
      | str s =>
        cases hrm : rmLookup m s with
        | none => simp [mvEntryApply, entryMvName, hlk, hrm, applyName]
        | some nw =>
          simp [mvEntryApply, entryMvName, hlk, hrm, applyName,
            lookupField_setField_self]
      | arr xs => simp [mvEntryApply, entryMvName, hlk]
      | obj gs => simp [mvEntryApply, entryMvName, hlk]
      | null => simp [mvEntryApply, entryMvName, hlk]
      | bool b => simp [mvEntryApply, entryMvName, hlk]
      | num n => simp [mvEntryApply, entryMvName, hlk]
  | null => rfl
  | bool b => rfl
  | num n => rfl
  | str s => rfl
  | arr xs => rfl

theorem wfMateEntry_apply (m : RenameMap) (e : Json) (h : wfMateEntry e = true) :
    wfMateEntry (mvEntryApply m e) = true := by
  cases e with
  | obj fs =>
    cases hlk : lookupField fs "mateName" with
    | none => simpa [mvEntryApply, hlk, wfMateEntry] using h
    | some v =>
      cases v with
      | str s =>
        cases hrm : rmLookup m s with
        | none => simpa [mvEntryApply, hlk, hrm, wfMateEntry] using h
        | some nw =>
          simp [mvEntryApply, hlk, hrm, wfMateEntry, lookupField_setField_self]
      | arr xs => simp [wfMateEntry, hlk] at h
      | obj gs => simp [wfMateEntry, hlk] at h
      | null => simpa [mvEntryApply, hlk, wfMateEntry] using h
      | bool b => simpa [mvEntryApply, hlk, wfMateEntry] using h
      | num n => simpa [mvEntryApply, hlk, wfMateEntry] using h
  | null => simp [wfMateEntry] at h
  | bool b => simp [wfMateEntry] at h
  | num n => simp [wfMateEntry] at h
  | str s => simp [wfMateEntry] at h
  | arr xs => simp [wfMateEntry] at h

def ftEntryApply (m : RenameMap) : Json → Json
  | .obj fs =>
    match (lookupField fs "message").getD (.obj []) with
    | .obj ms =>
      if jsonEqStr ((lookupField ms "featureType").getD .null) "mate" then
        match lookupField ms "name" with
        | some (.str s) =>
          match rmLookup m s with
          | some nw => .obj (setField fs "message" (.obj (setField ms "name" (.str nw))))
          | none => .obj fs
        | _ => .obj fs
      else .obj fs
    | _ => .obj fs
  | e => e

def ftEntryCount (m : RenameMap) (e : Json) : Nat :=
  match entryFtName e with
  | some s => if isRenamed m s then 1 else 0
  | none => 0

theorem renameFeatureEntry_eq (m : RenameMap) (e : Json) (h : wfFeatureEntry e = true) :
    renameFeatureEntry m e = .ok (ftEntryApply m e, ftEntryCount m e) := by
  cases e with
  | obj fs =>
    cases hmsg : lookupField fs "message" with
    | none =>
      simp [renameFeatureEntry, ftEntryApply, ftEntryCount, entryFtName, hmsg,
        jsonEqStr, lookupField]
    | some v =>
      cases v with
      | obj ms =>
        by_cases hft : jsonEqStr ((lookupField ms "featureType").getD .null) "mate" = true
        · cases hnm : lookupField ms "name" with
          | none =>
            simp [renameFeatureEntry, ftEntryApply, ftEntryCount, entryFtName,
              hmsg, hft, hnm]
          | some w =>
            cases w with
            | str s =>
              cases hrm : rmLookup m s with
              | none =>
                simp [renameFeatureEntry, ftEntryApply, ftEntryCount, entryFtName,
                  hmsg, hft, hnm, hrm, isRenamed]
              | some nw =>
                simp [renameFeatureEntry, ftEntryApply, ftEntryCount, entryFtName,
                  hmsg, hft, hnm, hrm, isRenamed]
            | arr ys => simp [wfFeatureEntry, hmsg, hnm] at h
            | obj gs => simp [wfFeatureEntry, hmsg, hnm] at h
            | null =>
              simp [renameFeatureEntry, ftEntryApply, ftEntryCount, entryFtName,
                hmsg, hft, hnm]
            | bool b =>
              simp [renameFeatureEntry, ftEntryApply, ftEntryCount, entryFtName,
                hmsg, hft, hnm]
            | num n =>
              simp [renameFeatureEntry, ftEntryApply, ftEntryCount, entryFtName,
                hmsg, hft, hnm]
        · simp only [Bool.not_eq_true] at hft
          simp [renameFeatureEntry, ftEntryApply, ftEntryCount, entryFtName, hmsg, hft]
      | null => simp [wfFeatureEntry, hmsg] at h
      | bool b => simp [wfFeatureEntry, hmsg] at h
      | num n => simp [wfFeatureEntry, hmsg] at h
      | str s => simp [wfFeatureEntry, hmsg] at h
      | arr ys => simp [wfFeatureEntry, hmsg] at h
  | null => simp [wfFeatureEntry] at h
  | bool b => simp [wfFeatureEntry] at h
  | num n => simp [wfFeatureEntry] at h
  | str s => simp [wfFeatureEntry] at h
  | arr xs => simp [wfFeatureEntry] at h

theorem entryFtName_apply (m : RenameMap) (e : Json) :
    entryFtName (ftEntryApply m e) = (entryFtName e).map (applyName m) := by
  cases e with
  | obj fs =>
    cases hmsg : lookupField fs "message" with
    | none => simp [ftEntryApply, entryFtName, hmsg, jsonEqStr, lookupField]
    | some v =>
      cases v with
      | obj ms =>
        by_cases hft : jsonEqStr ((lookupField ms "featureType").getD .null) "mate" = true
        · cases hnm : lookupField ms "name" with
          | none => simp [ftEntryApply, entryFtName, hmsg, hft, hnm]
          | some w =>
            cases w with
            | str s =>
              cases hrm : rmLookup m s with
              | none => simp [ftEntryApply, entryFtName, hmsg, hft, hnm, hrm, applyName]
              | some nw =>
                have ho : lookupField (setField ms "name" (Json.str nw)) "featureType"
                    = lookupField ms "featureType" :=
                  lookupField_setField_other ms "name" "featureType" (Json.str nw)
                    (by decide)
                simp [ftEntryApply, entryFtName, hmsg, hft, hnm, hrm, applyName,
                  lookupField_setField_self, ho]
            | arr ys => simp [ftEntryApply, entryFtName, hmsg, hft, hnm]
            | obj gs => simp [ftEntryApply, entryFtName, hmsg, hft, hnm]
            | null => simp [ftEntryApply, entryFtName, hmsg, hft, hnm]
            | bool b => simp [ftEntryApply, entryFtName, hmsg, hft, hnm]
            | num n => simp [ftEntryApply, entryFtName, hmsg, hft, hnm]
        · simp only [Bool.not_eq_true] at hft
          simp [ftEntryApply, entryFtName, hmsg, hft]
      | null => simp [ftEntryApply, entryFtName, hmsg]
      | bool b => simp [ftEntryApply, entryFtName, hmsg]
      | num n => simp [ftEntryApply, entryFtName, hmsg]
      | str s => simp [ftEntryApply, entryFtName, hmsg]
      | arr ys => simp [ftEntryApply, entryFtName, hmsg]
  | null => rfl
  | bool b => rfl
  | num n => rfl
  | str s => rfl
  | arr xs => rfl

theorem wfFeatureEntry_apply (m : RenameMap) (e : Json) (h : wfFeatureEntry e = true) :
    wfFeatureEntry (ftEntryApply m e) = true := by
  cases e with
  | obj fs =>
    cases hmsg : lookupField fs "message" with
    | none => simpa [ftEntryApply, hmsg, wfFeatureEntry, jsonEqStr, lookupField] using h
    | some v =>
      cases v with
      | obj ms =>
        by_cases hft : jsonEqStr ((lookupField ms "featureType").getD .null) "mate" = true
        · cases hnm : lookupField ms "name" with
          | none => simpa [ftEntryApply, hmsg, hft, hnm, wfFeatureEntry] using h
          | some w =>
            cases w with
            | str s =>
              cases hrm : rmLookup m s with
              | none => simpa [ftEntryApply, hmsg, hft, hnm, hrm, wfFeatureEntry] using h
              | some nw =>
                simp [ftEntryApply, hmsg, hft, hnm, hrm, wfFeatureEntry,
                  lookupField_setField_self]
            | arr ys => simp [wfFeatureEntry, hmsg, hnm] at h
            | obj gs => simp [wfFeatureEntry, hmsg, hnm] at h
            | null => simpa [ftEntryApply, hmsg, hft, hnm, wfFeatureEntry] using h
            | bool b => simpa [ftEntryApply, hmsg, hft, hnm, wfFeatureEntry] using h
            | num n => simpa [ftEntryApply, hmsg, hft, hnm, wfFeatureEntry] using h
        · simp only [Bool.not_eq_true] at hft
          simpa [ftEntryApply, hmsg, hft, wfFeatureEntry] using h
      | null => simp [wfFeatureEntry, hmsg] at h
      | bool b => simp [wfFeatureEntry, hmsg] at h
      | num n => simp [wfFeatureEntry, hmsg] at h
      | str s => simp [wfFeatureEntry, hmsg] at h
      | arr ys => simp [wfFeatureEntry, hmsg] at h
  | null => simp [wfFeatureEntry] at h
  | bool b => simp [wfFeatureEntry] at h
  | num n => simp [wfFeatureEntry] at h
  | str s => simp [wfFeatureEntry] at h
  | arr xs => simp [wfFeatureEntry] at h

def asmEntryApply (m : RenameMap) : Json → Json
  | .obj fs =>
    match (lookupField fs "featureData").getD (.obj []) with
    | .obj ds =>
      match lookupField ds "name" with
      | some (.str s) =>
        match rmLookup m s with
        | some nw => .obj (setField fs "featureData" (.obj (setField ds "name" (.str nw))))
        | none => .obj fs
      | _ => .obj fs
    | _ => .obj fs
  | e => e

def asmEntryCount (m : RenameMap) (e : Json) : Nat :=
  match entryAsmName e with
  | some s => if isRenamed m s then 1 else 0
  | none => 0

theorem renameAssemblyEntry_eq (m : RenameMap) (e : Json) (h : wfAssemblyEntry e = true) :
    renameAssemblyEntry m e = .ok (asmEntryApply m e, asmEntryCount m e) := by
  cases e with
  | obj fs =>
    cases hfd : lookupField fs "featureData" with
    | none =>
      simp [renameAssemblyEntry, asmEntryApply, asmEntryCount, entryAsmName, hfd,
        pyInCheck, except_bind_ok, lookupField]
    | some v =>
      cases v with
      | obj ds =>
        cases hnm : lookupField ds "name" with
        | none =>
          simp [renameAssemblyEntry, asmEntryApply, asmEntryCount, entryAsmName,
            hfd, hnm, pyInCheck, except_bind_ok]
        | some w =>
          cases w with
          | str s =>
            cases hrm : rmLookup m s with
            | none =>
              simp [renameAssemblyEntry, asmEntryApply, asmEntryCount, entryAsmName,
                hfd, hnm, hrm, pyInCheck, except_bind_ok, isRenamed]
            | some nw =>
              simp [renameAssemblyEntry, asmEntryApply, asmEntryCount, entryAsmName,
                hfd, hnm, hrm, pyInCheck, except_bind_ok, isRenamed]
          | arr ys => simp [wfAssemblyEntry, hfd, hnm] at h
          | obj gs => simp [wfAssemblyEntry, hfd, hnm] at h
          | null =>
            simp [renameAssemblyEntry, asmEntryApply, asmEntryCount, entryAsmName,
              hfd, hnm, pyInCheck, except_bind_ok]
          | bool b =>
            simp [renameAssemblyEntry, asmEntryApply, asmEntryCount, entryAsmName,
              hfd, hnm, pyInCheck, except_bind_ok]
          | num n =>
            simp [renameAssemblyEntry, asmEntryApply, asmEntryCount, entryAsmName,
              hfd, hnm, pyInCheck, except_bind_ok]
      | null => simp [wfAssemblyEntry, hfd] at h
      | bool b => simp [wfAssemblyEntry, hfd] at h
      | num n => simp [wfAssemblyEntry, hfd] at h
      | str s => simp [wfAssemblyEntry, hfd] at h
      | arr ys => simp [wfAssemblyEntry, hfd] at h
  | null => simp [wfAssemblyEntry] at h
  | bool b => simp [wfAssemblyEntry] at h
  | num n => simp [wfAssemblyEntry] at h
  | str s => simp [wfAssemblyEntry] at h
  | arr xs => simp [wfAssemblyEntry] at h

theorem entryAsmName_apply (m : RenameMap) (e : Json) :
    entryAsmName (asmEntryApply m e) = (entryAsmName e).map (applyName m) := by
  cases e with
  | obj fs =>
    cases hfd : lookupField fs "featureData" with
    | none => simp [asmEntryApply, entryAsmName, hfd, lookupField]
    | some v =>
      cases v with
      | obj ds =>
        cases hnm : lookupField ds "name" with
        | none => simp [asmEntryApply, entryAsmName, hfd, hnm]
        | some w =>
          cases w with
          | str s =>
            cases hrm : rmLookup m s with
            | none => simp [asmEntryApply, entryAsmName, hfd, hnm, hrm, applyName]
            | some nw =>
              simp [asmEntryApply, entryAsmName, hfd, hnm, hrm, applyName,
                lookupField_setField_self]
          | arr ys => simp [asmEntryApply, entryAsmName, hfd, hnm]
          | obj gs => simp [asmEntryApply, entryAsmName, hfd, hnm]
          | null => simp [asmEntryApply, entryAsmName, hfd, hnm]
          | bool b => simp [asmEntryApply, entryAsmName, hfd, hnm]
          | num n => simp [asmEntryApply, entryAsmName, hfd, hnm]
      | null => simp [asmEntryApply, entryAsmName, hfd]
      | bool b => simp [asmEntryApply, entryAsmName, hfd]
      | num n => simp [asmEntryApply, entryAsmName, hfd]
      | str s => simp [asmEntryApply, entryAsmName, hfd]
      | arr ys => simp [asmEntryApply, entryAsmName, hfd]
  | null => rfl
  | bool b => rfl
  | num n => rfl
  | str s => rfl
  | arr xs => rfl

theorem wfAssemblyEntry_apply (m : RenameMap) (e : Json) (h : wfAssemblyEntry e = true) :
    wfAssemblyEntry (asmEntryApply m e) = true := by
  cases e with
  | obj fs =>
    cases hfd : lookupField fs "featureData" with
    | none => simpa [asmEntryApply, hfd, wfAssemblyEntry, lookupField] using h
    | some v =>
      cases v with
      | obj ds =>
        cases hnm : lookupField ds "name" with
        | none => simpa [asmEntryApply, hfd, hnm, wfAssemblyEntry] using h
        | some w =>
          cases w with
          | str s =>
            cases hrm : rmLookup m s with
            | none => simpa [asmEntryApply, hfd, hnm, hrm, wfAssemblyEntry] using h
            | some nw =>
              simp [asmEntryApply, hfd, hnm, hrm, wfAssemblyEntry,
                lookupField_setField_self]
          | arr ys => simp [wfAssemblyEntry, hfd, hnm] at h
          | obj gs => simp [wfAssemblyEntry, hfd, hnm] at h
          | null => simpa [asmEntryApply, hfd, hnm, wfAssemblyEntry] using h
          | bool b => simpa [asmEntryApply, hfd, hnm, wfAssemblyEntry] using h
          | num n => simpa [asmEntryApply, hfd, hnm, wfAssemblyEntry] using h
      | null => simp [wfAssemblyEntry, hfd] at h
      | bool b => simp [wfAssemblyEntry, hfd] at h
      | num n => simp [wfAssemblyEntry, hfd] at h
      | str s => simp [wfAssemblyEntry, hfd] at h
      | arr ys => simp [wfAssemblyEntry, hfd] at h
  | null => simp [wfAssemblyEntry] at h
  | bool b => simp [wfAssemblyEntry] at h
  | num n => simp [wfAssemblyEntry] at h
  | str s => simp [wfAssemblyEntry] at h
  | arr xs => simp [wfAssemblyEntry] at h

/-! ## Document-level characterization -/

theorem renameEntriesFold_ok (step : Json → Except PyErr (Json × Nat))
    (f : Json → Json) (cnt : Json → Nat) :
    ∀ xs : List Json, (∀ e ∈ xs, step e = .ok (f e, cnt e)) →
      renameEntriesFold step xs = (xs.map f, (xs.map cnt).sum, none)
  | [], _ => rfl
  | e :: rest, h => by
    have he := h e (List.mem_cons_self _ _)
    have ih := renameEntriesFold_ok step f cnt rest
      (fun x hx => h x (List.mem_cons_of_mem _ hx))
    simp [renameEntriesFold, he, ih]

theorem filterMap_map_names {f : Json → Json} {nm : Json → Option String}
    {g : String → String} (h : ∀ e, nm (f e) = (nm e).map g) :
    ∀ xs : List Json, (xs.map f).filterMap nm = (xs.filterMap nm).map g
  | [] => rfl
  | e :: rest => by
    have ih := filterMap_map_names h rest
    cases hh : nm e with
    | none => simp [List.filterMap_cons, h e, hh, ih]
    | some s => simp [List.filterMap_cons, h e, hh, ih]

theorem sum_cnt_eq_countP (nm : Json → Option String) (p : String → Bool) :
    ∀ xs : List Json,
      (xs.map (fun e => match nm e with
        | some s => if p s then 1 else 0
        | none => 0)).sum = (xs.filterMap nm).countP p
  | [] => rfl
  | e :: rest => by
    have ih := sum_cnt_eq_countP nm p rest
    cases hh : nm e with
    | none => simp [List.filterMap_cons, hh, ih]
    | some s =>
      cases hp : p s <;>
        simp [List.filterMap_cons, hh, hp, ih, List.countP_cons, Nat.add_comm]

theorem all_map_of_all {f : Json → Json} {wfE : Json → Bool}
    (h : ∀ e, wfE e = true → wfE (f e) = true) (xs : List Json)
    (hall : xs.all wfE = true) : (xs.map f).all wfE = true := by
  rw [List.all_eq_true] at hall ⊢
  intro e he
  obtain ⟨x, hx, rfl⟩ := List.mem_map.mp he
  exact h x (hall x hx)

theorem pyTruthy_obj_ne_nil (fs : List (String × Json)) (h : fs ≠ []) :
    pyTruthy (.obj fs) = true := by
  cases fs with
  | nil => exact absurd rfl h
  | cons p rest => rfl

theorem pyTruthy_obj_ne_nil_inv (fs : List (String × Json))
    (h : pyTruthy (.obj fs) = true) : fs ≠ [] := by
  cases fs with
  | nil => simp [pyTruthy] at h
  | cons p rest => simp

theorem renameDocField_falsy (step : Json → Except PyErr (Json × Nat)) (field : String)
    (j : Json) (h : pyTruthy j = false) : renameDocField step field j = (j, 0, none) := by
  simp [renameDocField, h]

theorem renameDocField_nofield (step : Json → Except PyErr (Json × Nat)) (field : String)
    (fs : List (String × Json)) (hne : fs ≠ []) (hlk : lookupField fs field = none) :
    renameDocField step field (.obj fs) = (.obj fs, 0, none) := by
  simp [renameDocField, pyTruthy_obj_ne_nil fs hne, hlk]

theorem renameDocField_arr (step : Json → Except PyErr (Json × Nat)) (field : String)
    (fs : List (String × Json)) (xs : List Json) (f : Json → Json) (cnt : Json → Nat)
    (hne : fs ≠ []) (hlk : lookupField fs field = some (.arr xs))
    (hstep : ∀ e ∈ xs, step e = .ok (f e, cnt e)) :
    renameDocField step field (.obj fs)
      = (.obj (setField fs field (.arr (xs.map f))), (xs.map cnt).sum, none) := by
  have hfold := renameEntriesFold_ok step f cnt xs hstep
  simp [renameDocField, pyTruthy_obj_ne_nil fs hne, hlk, pyIter, hfold]

theorem rawMvNames_falsy (j : Json) (h : pyTruthy j = false) : rawMvNames j = [] := by
  cases j with
  | obj fs =>
    cases fs with
    | nil => rfl
    | cons p rest => simp [pyTruthy] at h
  | null => rfl
  | bool b => rfl
  | num n => rfl
  | str s => rfl
  | arr xs => rfl

theorem rawFtNames_falsy (j : Json) (h : pyTruthy j = false) : rawFtNames j = [] := by
  cases j with
  | obj fs =>
    cases fs with
    | nil => rfl
    | cons p rest => simp [pyTruthy] at h
  | null => rfl
  | bool b => rfl
  | num n => rfl
  | str s => rfl
  | arr xs => rfl

theorem rawAsmNames_falsy (j : Json) (h : pyTruthy j = false) : rawAsmNames j = [] := by
  cases j with
  | obj fs =>
    cases fs with
    | nil => rfl
    | cons p rest => simp [pyTruthy] at h
  | null => rfl
  | bool b => rfl
  | num n => rfl
  | str s => rfl
  | arr xs => rfl

theorem renameMateValuesDoc_char (m : RenameMap) (j : Json) (h : wfMateValuesDoc j = true) :
    (renameMateValuesDoc m j).2.2 = none
    ∧ rawMvNames (renameMateValuesDoc m j).1 = (rawMvNames j).map (applyName m)
    ∧ (renameMateValuesDoc m j).2.1 = (rawMvNames j).countP (isRenamed m)
    ∧ wfMateValuesDoc (renameMateValuesDoc m j).1 = true
    ∧ pyTruthy (renameMateValuesDoc m j).1 = pyTruthy j := by
  by_cases htr : pyTruthy j = true
  · cases j with
    | obj fs =>
      have hne := pyTruthy_obj_ne_nil_inv fs htr
      cases hlk : lookupField fs "mateValues" with
      | none =>
        rw [renameMateValuesDoc, renameDocField_nofield _ _ _ hne hlk]
        refine ⟨rfl, ?_, ?_, h, rfl⟩ <;> simp [rawMvNames, hlk]
      | some v =>
        cases v with
        | arr xs =>
          have hall : xs.all wfMateEntry = true := by
            simpa [wfMateValuesDoc, htr, hlk] using h
          have hstep : ∀ e ∈ xs,
              renameMateEntry m e = .ok (mvEntryApply m e, mvEntryCount m e) :=
            fun e he => renameMateEntry_eq m e (List.all_eq_true.mp hall e he)
          rw [renameMateValuesDoc,
            renameDocField_arr _ _ fs xs (mvEntryApply m) (mvEntryCount m) hne hlk hstep]
          refine ⟨rfl, ?_, ?_, ?_, ?_⟩
          · simp only [rawMvNames, lookupField_setField_self, hlk]
            exact filterMap_map_names (entryMvName_apply m) xs
          · simp only [rawMvNames, hlk]
            exact sum_cnt_eq_countP entryMvName (isRenamed m) xs
          · have hne2 := setField_ne_nil fs "mateValues" (.arr (xs.map (mvEntryApply m)))
            simp only [wfMateValuesDoc, pyTruthy_obj_ne_nil _ hne2, if_pos,
              lookupField_setField_self]
            exact all_map_of_all (wfMateEntry_apply m) xs hall
          · rw [pyTruthy_obj_ne_nil _ (setField_ne_nil fs _ _), htr]
        | null => simp [wfMateValuesDoc, htr, hlk] at h
        | bool b => simp [wfMateValuesDoc, htr, hlk] at h
        | num n => simp [wfMateValuesDoc, htr, hlk] at h
        | str s => simp [wfMateValuesDoc, htr, hlk] at h
        | obj gs => simp [wfMateValuesDoc, htr, hlk] at h
    | null => simp [pyTruthy] at htr
    | bool b => simp [wfMateValuesDoc, htr] at h
    | num n => simp [wfMateValuesDoc, htr] at h
    | str s => simp [wfMateValuesDoc, htr] at h
    | arr xs => simp [wfMateValuesDoc, htr] at h
  · have h0 : pyTruthy j = false := by simpa using htr
    rw [renameMateValuesDoc, renameDocField_falsy _ _ _ h0]
    simp [rawMvNames_falsy j h0, h, h0]

theorem renameFeaturesDoc_char (m : RenameMap) (j : Json) (h : wfFeaturesDoc j = true) :
    (renameFeaturesDoc m j).2.2 = none
    ∧ rawFtNames (renameFeaturesDoc m j).1 = (rawFtNames j).map (applyName m)
    ∧ (renameFeaturesDoc m j).2.1 = (rawFtNames j).countP (isRenamed m)
    ∧ wfFeaturesDoc (renameFeaturesDoc m j).1 = true
    ∧ pyTruthy (renameFeaturesDoc m j).1 = pyTruthy j := by
  by_cases htr : pyTruthy j = true
  · cases j with
    | obj fs =>
      have hne := pyTruthy_obj_ne_nil_inv fs htr
      cases hlk : lookupField fs "features" with
      | none =>
        rw [renameFeaturesDoc, renameDocField_nofield _ _ _ hne hlk]
        refine ⟨rfl, ?_, ?_, h, rfl⟩ <;> simp [rawFtNames, hlk]
      | some v =>
        cases v with
        | arr xs =>
          have hall : xs.all wfFeatureEntry = true := by
            simpa [wfFeaturesDoc, htr, hlk] using h
          have hstep : ∀ e ∈ xs,
              renameFeatureEntry m e = .ok (ftEntryApply m e, ftEntryCount m e) :=
            fun e he => renameFeatureEntry_eq m e (List.all_eq_true.mp hall e he)
          rw [renameFeaturesDoc,
            renameDocField_arr _ _ fs xs (ftEntryApply m) (ftEntryCount m) hne hlk hstep]
          refine ⟨rfl, ?_, ?_, ?_, ?_⟩
          · simp only [rawFtNames, lookupField_setField_self, hlk]
            exact filterMap_map_names (entryFtName_apply m) xs
          · simp only [rawFtNames, hlk]
            exact sum_cnt_eq_countP entryFtName (isRenamed m) xs
          · have hne2 := setField_ne_nil fs "features" (.arr (xs.map (ftEntryApply m)))
            simp only [wfFeaturesDoc, pyTruthy_obj_ne_nil _ hne2, if_pos,
              lookupField_setField_self]
            exact all_map_of_all (wfFeatureEntry_apply m) xs hall
          · rw [pyTruthy_obj_ne_nil _ (setField_ne_nil fs _ _), htr]
        | null => simp [wfFeaturesDoc, htr, hlk] at h
        | bool b => simp [wfFeaturesDoc, htr, hlk] at h
        | num n => simp [wfFeaturesDoc, htr, hlk] at h
        | str s => simp [wfFeaturesDoc, htr, hlk] at h
        | obj gs => simp [wfFeaturesDoc, htr, hlk] at h
    | null => simp [pyTruthy] at htr
    | bool b => simp [wfFeaturesDoc, htr] at h
    | num n => simp [wfFeaturesDoc, htr] at h
    | str s => simp [wfFeaturesDoc, htr] at h
    | arr xs => simp [wfFeaturesDoc, htr] at h
  · have h0 : pyTruthy j = false := by simpa using htr
    rw [renameFeaturesDoc, renameDocField_falsy _ _ _ h0]
    simp [rawFtNames_falsy j h0, h, h0]

theorem renameAssemblyDoc_char (m : RenameMap) (j : Json) (h : wfAssemblyDoc j = true) :
    (renameAssemblyDoc m j).2.2 = none
    ∧ rawAsmNames (renameAssemblyDoc m j).1 = (rawAsmNames j).map (applyName m)
    ∧ (renameAssemblyDoc m j).2.1 = (rawAsmNames j).countP (isRenamed m)
    ∧ wfAssemblyDoc (renameAssemblyDoc m j).1 = true
    ∧ pyTruthy (renameAssemblyDoc m j).1 = pyTruthy j := by
  by_cases htr : pyTruthy j = true
  · cases j with
    | obj fs =>
      have hne := pyTruthy_obj_ne_nil_inv fs htr
      cases hra : lookupField fs "rootAssembly" with
      | none =>
        have : renameAssemblyDoc m (.obj fs) = (.obj fs, 0, none) := by
          simp [renameAssemblyDoc, pyTruthy_obj_ne_nil fs hne, hra, lookupField]
        rw [this]
        refine ⟨rfl, ?_, ?_, h, rfl⟩ <;> simp [rawAsmNames, hra, lookupField]
      | some v =>
        cases v with
        | obj rs =>
          cases hfk : lookupField rs "features" with
          | none =>
            have : renameAssemblyDoc m (.obj fs) = (.obj fs, 0, none) := by
              simp [renameAssemblyDoc, pyTruthy_obj_ne_nil fs hne, hra, hfk]
            rw [this]
            refine ⟨rfl, ?_, ?_, h, rfl⟩ <;> simp [rawAsmNames, hra, hfk]
          | some v2 =>
            cases v2 with
            | arr xs =>
              have hall : xs.all wfAssemblyEntry = true := by
                simpa [wfAssemblyDoc, htr, hra, hfk] using h
              have hstep : ∀ e ∈ xs,
                  renameAssemblyEntry m e = .ok (asmEntryApply m e, asmEntryCount m e) :=
                fun e he => renameAssemblyEntry_eq m e (List.all_eq_true.mp hall e he)
              have hfold := renameEntriesFold_ok (renameAssemblyEntry m)
                (asmEntryApply m) (asmEntryCount m) xs hstep
              have hout : renameAssemblyDoc m (.obj fs)
                  = (.obj (setField fs "rootAssembly"
                      (.obj (setField rs "features" (.arr (xs.map (asmEntryApply m)))))),
                     (xs.map (asmEntryCount m)).sum, none) := by
                simp [renameAssemblyDoc, pyTruthy_obj_ne_nil fs hne, hra, hfk,
                  pyIter, hfold]
              rw [hout]
              refine ⟨rfl, ?_, ?_, ?_, ?_⟩
              · simp only [rawAsmNames, lookupField_setField_self, Option.getD_some,
                  hra, hfk]
                exact filterMap_map_names (entryAsmName_apply m) xs
              · simp only [rawAsmNames, hra, hfk, Option.getD_some]
                exact sum_cnt_eq_countP entryAsmName (isRenamed m) xs
              · have hne2 := setField_ne_nil fs "rootAssembly"
                  (.obj (setField rs "features" (.arr (xs.map (asmEntryApply m)))))
                simp only [wfAssemblyDoc, pyTruthy_obj_ne_nil _ hne2, if_pos,
                  lookupField_setField_self, Option.getD_some]
                exact all_map_of_all (wfAssemblyEntry_apply m) xs hall
              · rw [pyTruthy_obj_ne_nil _ (setField_ne_nil fs _ _), htr]
            | null => simp [wfAssemblyDoc, htr, hra, hfk] at h
            | bool b => simp [wfAssemblyDoc, htr, hra, hfk] at h
            | num n => simp [wfAssemblyDoc, htr, hra, hfk] at h
            | str s => simp [wfAssemblyDoc, htr, hra, hfk] at h
            | obj gs => simp [wfAssemblyDoc, htr, hra, hfk] at h
        | null => simp [wfAssemblyDoc, htr, hra] at h
        | bool b => simp [wfAssemblyDoc, htr, hra] at h
        | num n => simp [wfAssemblyDoc, htr, hra] at h
        | str s => simp [wfAssemblyDoc, htr, hra] at h
        | arr ys => simp [wfAssemblyDoc, htr, hra] at h
    | null => simp [pyTruthy] at htr
    | bool b => simp [wfAssemblyDoc, htr] at h
    | num n => simp [wfAssemblyDoc, htr] at h
    | str s => simp [wfAssemblyDoc, htr] at h
    | arr xs => simp [wfAssemblyDoc, htr] at h
  · have h0 : pyTruthy j = false := by simpa using htr
    have : renameAssemblyDoc m j = (j, 0, none) := by simp [renameAssemblyDoc, h0]
    rw [this]
    simp [rawAsmNames_falsy j h0, h, h0]

/-- C4 (amended): on well-formed documents apply_renames succeeds and
replaces exactly the occurrences whose identifier is a key of the map,
using the per-view matching rules of apply (any matevalues entry with a
mateName, any mate-typed features entry with a name — including
"Fastened 1" — and any assembly featureData with a name — dof_ prefix or
not); occurrences whose identifier is not a key are left unchanged, and
the per-view change counts count exactly the matched occurrences. -/
theorem c4_apply_renames_exact (m : RenameMap) (d : Docs) (h : wfDocs d = true) :
    (apply_renames m d).err = none
    ∧ rawMvNames (apply_renames m d).docs.mv = (rawMvNames d.mv).map (applyName m)
    ∧ rawFtNames (apply_renames m d).docs.ft = (rawFtNames d.ft).map (applyName m)
    ∧ rawAsmNames (apply_renames m d).docs.asm = (rawAsmNames d.asm).map (applyName m)
    ∧ (apply_renames m d).cmv = (rawMvNames d.mv).countP (isRenamed m)
    ∧ (apply_renames m d).cft = (rawFtNames d.ft).countP (isRenamed m)
    ∧ (apply_renames m d).casm = (rawAsmNames d.asm).countP (isRenamed m) := by
  have h' : (wfMateValuesDoc d.mv && wfFeaturesDoc d.ft && wfAssemblyDoc d.asm) = true := h
  rw [Bool.and_eq_true, Bool.and_eq_true] at h'
  obtain ⟨⟨h1, h2⟩, h3⟩ := h'
  obtain ⟨e1, r1, c1, -, -⟩ := renameMateValuesDoc_char m d.mv h1
  obtain ⟨e2, r2, c2, -, -⟩ := renameFeaturesDoc_char m d.ft h2
  obtain ⟨e3, r3, c3, -, -⟩ := renameAssemblyDoc_char m d.asm h3
  rcases hmv : renameMateValuesDoc m d.mv with ⟨mv1, cc1, ee1⟩
  rcases hft : renameFeaturesDoc m d.ft with ⟨ft1, cc2, ee2⟩
  rcases hasm : renameAssemblyDoc m d.asm with ⟨asm1, cc3, ee3⟩
  rw [hmv] at e1 r1 c1
  rw [hft] at e2 r2 c2
  rw [hasm] at e3 r3 c3
  simp only at e1 r1 c1 e2 r2 c2 e3 r3 c3
  subst e1 e2 e3
  simp only [apply_renames, hmv, hft, hasm]
  exact ⟨trivial, r1, r2, r3, c1, c2, c3⟩

/-! ## Truthiness preservation and load inversion -/

theorem renameDocField_fst_truthy (step : Json → Except PyErr (Json × Nat))
    (field : String) (j : Json) :
    pyTruthy (renameDocField step field j).1 = pyTruthy j := by
  by_cases h : pyTruthy j = true
  · cases j with
    | obj fs =>
      cases hlk : lookupField fs field with
      | none => simp [renameDocField, h, hlk]
      | some v =>
        rcases hfold : renameEntriesFold step (match pyIter v with
          | .ok items => items
          | .error _ => []) with ⟨items1, c, err⟩
        cases v with
        | arr xs =>
          simp only [pyIter] at hfold
          simp [renameDocField, h, hlk, pyIter, hfold,
            pyTruthy_obj_ne_nil _ (setField_ne_nil fs field (.arr items1))]
        | obj gs =>
          simp only [pyIter] at hfold
          simp [renameDocField, h, hlk, pyIter, hfold]
        | str s =>
          simp only [pyIter] at hfold
          simp [renameDocField, h, hlk, pyIter, hfold]
        | null => simp [renameDocField, h, hlk, pyIter]
        | bool b => simp [renameDocField, h, hlk, pyIter]
        | num n => simp [renameDocField, h, hlk, pyIter]
    | null => simp [pyTruthy] at h
    | bool b => simp [renameDocField, h]
    | num n => simp [renameDocField, h]
    | str s => simp [renameDocField, h]
    | arr xs => simp [renameDocField, h]
  · have h0 : pyTruthy j = false := by simpa using h
    simp [renameDocField, h0]

theorem renameAssemblyDoc_fst_truthy (m : RenameMap) (j : Json) :
    pyTruthy (renameAssemblyDoc m j).1 = pyTruthy j := by
  by_cases h : pyTruthy j = true
  · cases j with
    | obj fs =>
      cases hra : lookupField fs "rootAssembly" with
      | none => simp [renameAssemblyDoc, h, hra, lookupField]
      | some v =>
        cases v with
        | obj rs =>
          cases hfk : lookupField rs "features" with
          | none => simp [renameAssemblyDoc, h, hra, hfk]
          | some v2 =>
            rcases hfold : renameEntriesFold (renameAssemblyEntry m) (match pyIter v2 with
              | .ok items => items
              | .error _ => []) with ⟨items1, c, err⟩
            cases v2 with
            | arr xs =>
              simp only [pyIter] at hfold
              simp [renameAssemblyDoc, h, hra, hfk, pyIter, hfold,
                pyTruthy_obj_ne_nil _ (setField_ne_nil fs "rootAssembly"
                  (.obj (setField rs "features" (.arr items1))))]
            | obj gs =>
              simp only [pyIter] at hfold
              simp [renameAssemblyDoc, h, hra, hfk, pyIter, hfold]
            | str s =>
              simp only [pyIter] at hfold
              simp [renameAssemblyDoc, h, hra, hfk, pyIter, hfold]
            | null => simp [renameAssemblyDoc, h, hra, hfk, pyIter]
            | bool b => simp [renameAssemblyDoc, h, hra, hfk, pyIter]
            | num n => simp [renameAssemblyDoc, h, hra, hfk, pyIter]
        | null => simp [renameAssemblyDoc, h, hra]
        | bool b => simp [renameAssemblyDoc, h, hra]
        | num n => simp [renameAssemblyDoc, h, hra]
        | str s => simp [renameAssemblyDoc, h, hra]
        | arr ys => simp [renameAssemblyDoc, h, hra]
    | null => simp [pyTruthy] at h
    | bool b => simp [renameAssemblyDoc, h]
    | num n => simp [renameAssemblyDoc, h]
    | str s => simp [renameAssemblyDoc, h]
    | arr xs => simp [renameAssemblyDoc, h]
  · have h0 : pyTruthy j = false := by simpa using h
    simp [renameAssemblyDoc, h0]

theorem renameAssemblyDoc_falsy (m : RenameMap) (j : Json) (h : pyTruthy j = false) :
    renameAssemblyDoc m j = (j, 0, none) := by
  simp [renameAssemblyDoc, h]

theorem load_files_ok (fs : RenameFS) (d : Docs) (h : load_files fs = .ok d) :
    fs.mv = some d.mv ∧ fs.ft = some d.ft ∧ fs.asm = some d.asm := by
  cases hmv : fs.mv with
  | none => simp [load_files, hmv] at h
  | some mv =>
    cases hft : fs.ft with
    | none => simp [load_files, hmv, hft] at h
    | some ft =>
      cases hasm : fs.asm with
      | none => simp [load_files, hmv, hft, hasm] at h
      | some asm =>
        simp only [load_files, hmv, hft, hasm, Except.ok.injEq] at h
        subst h
        exact ⟨rfl, rfl, rfl⟩

/-! ## Claim theorems for the rename engine -/

/-- C3: a rename map containing a key outside the extracted name universe
makes rename_mates fail with the unknown-identifier error listing exactly
the offending keys, and leaves the entire filesystem untouched: no
document and no backup is written (validation runs before create_backups
and before apply_renames). -/
theorem c3_unknown_identifier_rejected (fs : RenameFS) (m : RenameMap) (d : Docs)
    (n1 n2 n3 : List String)
    (hload : load_files fs = .ok d)
    (hext : extract_mate_names d = .ok (n1, n2, n3))
    (hmiss : ∃ k ∈ m.map (fun p => p.1), ¬(k ∈ n1 ∨ k ∈ n2 ∨ k ∈ n3)) :
    (rename_mates fs m).1 = fs
    ∧ (rename_mates fs m).2 = .error (.unknownIdentifier
        ((m.map (fun p => p.1)).filter
          (fun k => !(n1.contains k || n2.contains k || n3.contains k))))
    ∧ (∀ k, k ∈ (m.map (fun p => p.1)).filter
          (fun k => !(n1.contains k || n2.contains k || n3.contains k))
        ↔ (k ∈ m.map (fun p => p.1) ∧ k ∉ n1 ∧ k ∉ n2 ∧ k ∉ n3)) := by
  have hmem : ∀ k, k ∈ (m.map (fun p => p.1)).filter
      (fun k => !(n1.contains k || n2.contains k || n3.contains k))
      ↔ (k ∈ m.map (fun p => p.1) ∧ k ∉ n1 ∧ k ∉ n2 ∧ k ∉ n3) := by
    intro k
    rw [List.mem_filter]
    constructor
    · rintro ⟨h1, h2⟩
      simp only [Bool.not_eq_true', Bool.or_eq_false_iff] at h2
      obtain ⟨⟨ha, hb⟩, hc⟩ := h2
      exact ⟨h1, by simpa using ha, by simpa using hb, by simpa using hc⟩
    · rintro ⟨h1, ha, hb, hc⟩
      refine ⟨h1, ?_⟩
      simp only [Bool.not_eq_true', Bool.or_eq_false_iff]
      exact ⟨⟨by simpa using ha, by simpa using hb⟩, by simpa using hc⟩
  have hne : ((m.map (fun p => p.1)).filter
      (fun k => !(n1.contains k || n2.contains k || n3.contains k))).isEmpty = false := by
    obtain ⟨k, hk, hnot⟩ := hmiss
    rw [not_or, not_or] at hnot
    have hkmem := (hmem k).mpr ⟨hk, hnot.1, hnot.2.1, hnot.2.2⟩
    cases hl : (m.map (fun p => p.1)).filter
        (fun k => !(n1.contains k || n2.contains k || n3.contains k)) with
    | nil => rw [hl] at hkmem; simp at hkmem
    | cons a l => rfl
  have hcond : ¬(((m.map (fun p => p.1)).filter
      (fun k => !(n1.contains k || n2.contains k || n3.contains k))).isEmpty = true) := by
    intro hc
    rw [hc] at hne
    exact absurd hne (by simp)
  refine ⟨?_, ?_, hmem⟩ <;>
    · simp only [rename_mates, hload, hext]
      rw [if_neg hcond]

/-- C8 (amended): document loading is all-or-nothing: load_files succeeds
exactly when all three document files are present (and then yields their
contents); if any file is missing it fails with FileNotFoundError — a view
that fails to load is never degraded to a diagnostic. -/
theorem c8_loading_all_or_nothing (fs : RenameFS) :
    (∀ e, load_files fs = .error e →
      e = .fileNotFound ∧ (fs.mv = none ∨ fs.ft = none ∨ fs.asm = none)) ∧
    (∀ d, load_files fs = .ok d →
      fs.mv = some d.mv ∧ fs.ft = some d.ft ∧ fs.asm = some d.asm) ∧
    ((fs.mv = none ∨ fs.ft = none ∨ fs.asm = none) → ∀ d, load_files fs ≠ .ok d) := by
  refine ⟨?_, fun d h => load_files_ok fs d h, ?_⟩
  · intro e he
    cases hmv : fs.mv with
    | none => simp only [load_files, hmv] at he; exact ⟨(Except.error.inj he).symm, Or.inl rfl⟩
    | some mv =>
      cases hft : fs.ft with
      | none =>
        simp only [load_files, hmv, hft] at he
        exact ⟨(Except.error.inj he).symm, Or.inr (Or.inl rfl)⟩
      | some ft =>
        cases hasm : fs.asm with
        | none =>
          simp only [load_files, hmv, hft, hasm] at he
          exact ⟨(Except.error.inj he).symm, Or.inr (Or.inr rfl)⟩
        | some asm => simp [load_files, hmv, hft, hasm] at he
  · intro hnone d hok
    obtain ⟨h1, h2, h3⟩ := load_files_ok fs d hok
    rcases hnone with h | h | h <;> simp_all

/-- C2 (amended): rename_mates is all-or-nothing on disk. Whenever it
returns an error — including an apply_renames failure on a later document
after an earlier one was already mutated in memory — none of the three
document files has been overwritten; on success all three files hold
exactly the documents produced by applying the rename to all three views.
(The in-memory mutations of apply_renames are not rolled back; see the
counterexample theorem.) -/
theorem c2_all_or_nothing_on_disk (fs : RenameFS) (m : RenameMap) :
    (∀ e, (rename_mates fs m).2 = .error e →
      (rename_mates fs m).1.mv = fs.mv ∧ (rename_mates fs m).1.ft = fs.ft
        ∧ (rename_mates fs m).1.asm = fs.asm) ∧
    (∀ c, (rename_mates fs m).2 = .ok c →
      ∃ d, load_files fs = .ok d ∧ (apply_renames m d).err = none
        ∧ (rename_mates fs m).1.mv = some (apply_renames m d).docs.mv
        ∧ (rename_mates fs m).1.ft = some (apply_renames m d).docs.ft
        ∧ (rename_mates fs m).1.asm = some (apply_renames m d).docs.asm) := by
  cases hload : load_files fs with
  | error e0 =>
    constructor
    · intro e _
      simp [rename_mates, hload]
    · intro c hc
      simp [rename_mates, hload] at hc
  | ok d =>
    obtain ⟨hfsmv, hfsft, hfsasm⟩ := load_files_ok fs d hload
    cases hext : extract_mate_names d with
    | error pe =>
      constructor
      · intro e _
        simp [rename_mates, hload, hext]
      · intro c hc
        simp [rename_mates, hload, hext] at hc
    | ok ns =>
      rcases ns with ⟨n1, n2, n3⟩
      by_cases hempty : ((m.map (fun p => p.1)).filter
          (fun k => !(n1.contains k || n2.contains k || n3.contains k))).isEmpty = true
      · rcases hmv : renameMateValuesDoc m d.mv with ⟨mv1, cc1, ee1⟩
        cases ee1 with
        | some pe1 =>
          have happ : apply_renames m d
              = ⟨⟨mv1, d.ft, d.asm⟩, cc1, 0, 0, some pe1⟩ := by
            simp [apply_renames, hmv]
          constructor
          · intro e _
            simp only [rename_mates, hload, hext]
            rw [if_pos hempty]
            simp [happ, create_backups]
          · intro c hc
            simp only [rename_mates, hload, hext] at hc
            rw [if_pos hempty] at hc
            simp [happ] at hc
        | none =>
          rcases hft : renameFeaturesDoc m d.ft with ⟨ft1, cc2, ee2⟩
          cases ee2 with
          | some pe2 =>
            have happ : apply_renames m d
                = ⟨⟨mv1, ft1, d.asm⟩, cc1, cc2, 0, some pe2⟩ := by
              simp [apply_renames, hmv, hft]
            constructor
            · intro e _
              simp only [rename_mates, hload, hext]
              rw [if_pos hempty]
              simp [happ, create_backups]
            · intro c hc
              simp only [rename_mates, hload, hext] at hc
              rw [if_pos hempty] at hc
              simp [happ] at hc
          | none =>
            rcases hasm : renameAssemblyDoc m d.asm with ⟨asm1, cc3, ee3⟩
            cases ee3 with
            | some pe3 =>
              have happ : apply_renames m d
                  = ⟨⟨mv1, ft1, asm1⟩, cc1, cc2, cc3, some pe3⟩ := by
                simp [apply_renames, hmv, hft, hasm]
              constructor
              · intro e _
                simp only [rename_mates, hload, hext]
                rw [if_pos hempty]
                simp [happ, create_backups]
              · intro c hc
                simp only [rename_mates, hload, hext] at hc
                rw [if_pos hempty] at hc
                simp [happ] at hc
            | none =>
              have happ : apply_renames m d
                  = ⟨⟨mv1, ft1, asm1⟩, cc1, cc2, cc3, none⟩ := by
                simp [apply_renames, hmv, hft, hasm]
              have hsavemv : (save_files (create_backups fs) ⟨mv1, ft1, asm1⟩).mv
                  = some mv1 := by
                by_cases ht : pyTruthy mv1 = true
                · simp [save_files, ht]
                · have ht0 : pyTruthy mv1 = false := by simpa using ht
                  have := renameDocField_fst_truthy (renameMateEntry m) "mateValues" d.mv
                  rw [renameMateValuesDoc] at hmv
                  rw [hmv] at this
                  simp only at this
                  rw [ht0] at this
                  have hmv0 : renameDocField (renameMateEntry m) "mateValues" d.mv
                      = (d.mv, 0, none) := renameDocField_falsy _ _ _ this.symm
                  rw [hmv0] at hmv
                  have : mv1 = d.mv := by
                    exact (Prod.mk.injEq .. ▸ hmv).1.symm
                  simp [save_files, create_backups, ht0, hfsmv, this]
              have hsaveft : (save_files (create_backups fs) ⟨mv1, ft1, asm1⟩).ft
                  = some ft1 := by
                by_cases ht : pyTruthy ft1 = true
                · simp [save_files, ht]
                · have ht0 : pyTruthy ft1 = false := by simpa using ht
                  have := renameDocField_fst_truthy (renameFeatureEntry m) "features" d.ft
                  rw [renameFeaturesDoc] at hft
                  rw [hft] at this
                  simp only at this
                  rw [ht0] at this
                  have hft0 : renameDocField (renameFeatureEntry m) "features" d.ft
                      = (d.ft, 0, none) := renameDocField_falsy _ _ _ this.symm
                  rw [hft0] at hft
                  have : ft1 = d.ft := by
                    exact (Prod.mk.injEq .. ▸ hft).1.symm
                  simp [save_files, create_backups, ht0, hfsft, this]
              have hsaveasm : (save_files (create_backups fs) ⟨mv1, ft1, asm1⟩).asm
                  = some asm1 := by
                by_cases ht : pyTruthy asm1 = true
                · simp [save_files, ht]
                · have ht0 : pyTruthy asm1 = false := by simpa using ht
                  have := renameAssemblyDoc_fst_truthy m d.asm
                  rw [hasm] at this
                  simp only at this
                  rw [ht0] at this
                  have hasm0 : renameAssemblyDoc m d.asm = (d.asm, 0, none) :=
                    renameAssemblyDoc_falsy m d.asm this.symm
                  rw [hasm0] at hasm
                  have : asm1 = d.asm := by
                    exact (Prod.mk.injEq .. ▸ hasm).1.symm
                  simp [save_files, create_backups, ht0, hfsasm, this]
              constructor
              · intro e he
                simp only [rename_mates, hload, hext] at he
                rw [if_pos hempty] at he
                simp [happ] at he
              · intro c _
                refine ⟨d, rfl, by rw [happ], ?_, ?_, ?_⟩ <;>
                  · simp only [rename_mates, hload, hext]
                    rw [if_pos hempty]
                    simp only [happ]
                    first
                      | exact hsavemv
                      | exact hsaveft
                      | exact hsaveasm
      · have hcond : ¬(((m.map (fun p => p.1)).filter
            (fun k => !(n1.contains k || n2.contains k || n3.contains k))).isEmpty
              = true) := hempty
        constructor
        · intro e _
          simp only [rename_mates, hload, hext]
          rw [if_neg hcond]
          exact ⟨rfl, rfl, rfl⟩
        · intro c hc
          simp only [rename_mates, hload, hext] at hc
          rw [if_neg hcond] at hc
          simp at hc

/-! ## Concrete JSON fixtures for the rename-engine claims -/

def mvDocA : Json := .obj [("mateValues", .arr [.obj [("mateName", .str "A")]])]

def emptyObj : Json := .obj []

def mapAB : RenameMap := [("A", "B")]

def ftBadDoc : Json := .arr [.num 1]

def docsBadFt : Docs := ⟨mvDocA, ftBadDoc, emptyObj⟩

/-- Counterexample to C2 as stated: on a triple whose features document has
an unexpected structural shape (a top-level JSON array), apply_renames
renames the matevalues view, then fails on the features view with
AttributeError, and the matevalues mutation is NOT rolled back — the
returned in-memory state shows the first view renamed and an error. -/
theorem c2_counterexample :
    (apply_renames mapAB docsBadFt).err = some .attributeError
    ∧ rawMvNames (apply_renames mapAB docsBadFt).docs.mv = ["B"]
    ∧ rawMvNames docsBadFt.mv = ["A"] := ⟨rfl, rfl, rfl⟩

def fsOk : RenameFS := ⟨some mvDocA, some emptyObj, some emptyObj, none, none, none⟩

/-- Witness for C2 (amended) at a concrete filesystem: a successful rename
writes the applied matevalues document. -/
theorem c2_witness :
    (rename_mates fsOk mapAB).1.mv
      = some (apply_renames mapAB ⟨mvDocA, emptyObj, emptyObj⟩).docs.mv := by
  obtain ⟨d, hd, -, hmv, -, -⟩ :=
    (c2_all_or_nothing_on_disk fsOk mapAB).2 (1, 0, 0) rfl
  have hd2 : d = (⟨mvDocA, emptyObj, emptyObj⟩ : Docs) := by
    have : load_files fsOk = .ok (⟨mvDocA, emptyObj, emptyObj⟩ : Docs) := rfl
    rw [this] at hd
    exact (Except.ok.inj hd).symm
  rw [hd2] at hmv
  exact hmv

def mapMissing : RenameMap := [("Missing Mate", "X")]

/-- Witness for C3: a rename map whose key is absent from every view makes
the tool fail with the unknown-identifier error naming that key, with the
filesystem (documents and backups) untouched. -/
theorem c3_witness :
    (rename_mates fsOk mapMissing).1 = fsOk
    ∧ (rename_mates fsOk mapMissing).2
        = .error (.unknownIdentifier ["Missing Mate"]) := by
  have h := c3_unknown_identifier_rejected fsOk mapMissing
    ⟨mvDocA, emptyObj, emptyObj⟩ ["A"] [] [] rfl rfl
    ⟨"Missing Mate", by decide, by decide⟩
  exact ⟨h.1, h.2.1⟩

def mvDocFastened : Json :=
  .obj [("mateValues", .arr [.obj [("mateName", .str "Fastened 1")]])]

def ftDocFastened : Json :=
  .obj [("features", .arr [.obj [("message",
    .obj [("featureType", .str "mate"), ("name", .str "Fastened 1")])]])]

def docsFastened : Docs := ⟨mvDocFastened, ftDocFastened, emptyObj⟩

def mapFastened : RenameMap := [("Fastened 1", "dof_x")]

/-- Counterexample to C4 as stated: "Fastened 1" is in the name universe
(it occurs in the matevalues view), so the rename map validates, yet
apply_renames DOES rename the features entry named "Fastened 1" — the
extraction-time exclusion does not exist at apply time. -/
theorem c4_counterexample :
    extract_mate_names docsFastened = .ok (["Fastened 1"], [], [])
    ∧ (apply_renames mapFastened docsFastened).err = none
    ∧ (apply_renames mapFastened docsFastened).cft = 1
    ∧ rawFtNames (apply_renames mapFastened docsFastened).docs.ft = ["dof_x"]
    ∧ rawFtNames docsFastened.ft = ["Fastened 1"] := ⟨rfl, rfl, rfl, rfl, rfl⟩

/-- Witness for C4 (amended) at a concrete input: the renamed matevalues
view lists exactly the mapped names. -/
theorem c4_witness :
    rawMvNames (apply_renames mapFastened docsFastened).docs.mv = ["dof_x"] :=
  ((c4_apply_renames_exact mapFastened docsFastened (by decide)).2.1).trans (by decide)

def fsOneMissing : RenameFS := ⟨some mvDocA, none, some emptyObj, none, none, none⟩

/-- Counterexample to C8 as stated: with two of the three views present and
one missing, loading (and with it identifier extraction) fails hard with
FileNotFoundError instead of degrading to a diagnostic; there is no
NoDocumentsLoaded distinction. -/
theorem c8_counterexample :
    load_files fsOneMissing = .error .fileNotFound
    ∧ fsOneMissing.mv.isSome = true
    ∧ fsOneMissing.asm.isSome = true := ⟨rfl, rfl, rfl⟩

/-- Witness for C8 (amended) at the same concrete filesystem. -/
theorem c8_witness :
    ToolErr.fileNotFound = ToolErr.fileNotFound
    ∧ (fsOneMissing.mv = none ∨ fsOneMissing.ft = none ∨ fsOneMissing.asm = none) :=
  (c8_loading_all_or_nothing fsOneMissing).1 .fileNotFound rfl

/-! ## Round-trip lemmas for the inverse rename map -/

theorem mvEntry_roundtrip (m : RenameMap) (e : Json)
    (hvals : (m.map (fun p => p.2)).Nodup)
    (hfresh : ∀ s, entryMvName e = some s → s ∉ m.map (fun p => p.2)) :
    mvEntryApply (invMap m) (mvEntryApply m e) = e := by
  cases e with
  | obj fs =>
    cases hlk : lookupField fs "mateName" with
    | none => simp [mvEntryApply, hlk]
    | some v =>
      cases v with
      | str s =>
        have hs : entryMvName (.obj fs) = some s := by simp [entryMvName, hlk]
        cases hrm : rmLookup m s with
        | none =>
          have hinv := rmLookup_invMap_none m s (hfresh s hs)
          simp [mvEntryApply, hlk, hrm, hinv]
        | some nw =>
          have hinv := rmLookup_invMap_of_mem m s nw hvals (rmLookup_mem m s nw hrm)
          have hres := setField_restore fs "mateName" (.str s) (.str nw) hlk
          simp [mvEntryApply, hlk, hrm, lookupField_setField_self, hinv, hres]
      | arr ys => simp [mvEntryApply, hlk]
      | obj gs => simp [mvEntryApply, hlk]
      | null => simp [mvEntryApply, hlk]
      | bool b => simp [mvEntryApply, hlk]
      | num n => simp [mvEntryApply, hlk]
  | null => rfl
  | bool b => rfl
  | num n => rfl
  | str s => rfl
  | arr xs => rfl

theorem ftEntry_roundtrip (m : RenameMap) (e : Json)
    (hvals : (m.map (fun p => p.2)).Nodup)
    (hfresh : ∀ s, entryFtName e = some s → s ∉ m.map (fun p => p.2)) :
    ftEntryApply (invMap m) (ftEntryApply m e) = e := by
  cases e with
  | obj fs =>
    cases hmsg : lookupField fs "message" with
    | none => simp [ftEntryApply, hmsg, lookupField, jsonEqStr]
    | some v =>
      cases v with
      | obj ms =>
        by_cases hft : jsonEqStr ((lookupField ms "featureType").getD .null) "mate" = true
        · cases hnm : lookupField ms "name" with
          | none => simp [ftEntryApply, hmsg, hft, hnm]
          | some w =>
            cases w with
            | str s =>
              have hs : entryFtName (.obj fs) = some s := by
                simp [entryFtName, hmsg, hft, hnm]
              cases hrm : rmLookup m s with
              | none =>
                have hinv := rmLookup_invMap_none m s (hfresh s hs)
                simp [ftEntryApply, hmsg, hft, hnm, hrm, hinv]
              | some nw =>
                have hinv := rmLookup_invMap_of_mem m s nw hvals (rmLookup_mem m s nw hrm)
                have hres1 := setField_restore ms "name" (.str s) (.str nw) hnm
                have hres2 := setField_restore fs "message"
                  (.obj ms) (.obj (setField ms "name" (.str nw))) hmsg
                have ho : lookupField (setField ms "name" (.str nw)) "featureType"
                    = lookupField ms "featureType" :=
                  lookupField_setField_other ms "name" "featureType" (.str nw) (by decide)
                simp [ftEntryApply, hmsg, hft, hnm, hrm, lookupField_setField_self,
                  ho, hinv, hres1, hres2]
            | arr ys => simp [ftEntryApply, hmsg, hft, hnm]
            | obj gs => simp [ftEntryApply, hmsg, hft, hnm]
            | null => simp [ftEntryApply, hmsg, hft, hnm]
            | bool b => simp [ftEntryApply, hmsg, hft, hnm]
            | num n => simp [ftEntryApply, hmsg, hft, hnm]
        · simp only [Bool.not_eq_true] at hft
          simp [ftEntryApply, hmsg, hft]
      | null => simp [ftEntryApply, hmsg]
      | bool b => simp [ftEntryApply, hmsg]
      | num n => simp [ftEntryApply, hmsg]
      | str s => simp [ftEntryApply, hmsg]
      | arr ys => simp [ftEntryApply, hmsg]
  | null => rfl
  | bool b => rfl
  | num n => rfl
  | str s => rfl
  | arr xs => rfl

theorem asmEntry_roundtrip (m : RenameMap) (e : Json)
    (hvals : (m.map (fun p => p.2)).Nodup)
    (hfresh : ∀ s, entryAsmName e = some s → s ∉ m.map (fun p => p.2)) :
    asmEntryApply (invMap m) (asmEntryApply m e) = e := by
  cases e with
  | obj fs =>
    cases hfd : lookupField fs "featureData" with
    | none => simp [asmEntryApply, hfd, lookupField]
    | some v =>
      cases v with
      | obj ds =>
        cases hnm : lookupField ds "name" with
        | none => simp [asmEntryApply, hfd, hnm]
        | some w =>
          cases w with
          | str s =>
            have hs : entryAsmName (.obj fs) = some s := by
              simp [entryAsmName, hfd, hnm]
            cases hrm : rmLookup m s with
            | none =>
              have hinv := rmLookup_invMap_none m s (hfresh s hs)
              simp [asmEntryApply, hfd, hnm, hrm, hinv]
            | some nw =>
              have hinv := rmLookup_invMap_of_mem m s nw hvals (rmLookup_mem m s nw hrm)
              have hres1 := setField_restore ds "name" (.str s) (.str nw) hnm
              have hres2 := setField_restore fs "featureData"
                (.obj ds) (.obj (setField ds "name" (.str nw))) hfd
              simp [asmEntryApply, hfd, hnm, hrm, lookupField_setField_self,
                hinv, hres1, hres2]
          | arr ys => simp [asmEntryApply, hfd, hnm]
          | obj gs => simp [asmEntryApply, hfd, hnm]
          | null => simp [asmEntryApply, hfd, hnm]
          | bool b => simp [asmEntryApply, hfd, hnm]
          | num n => simp [asmEntryApply, hfd, hnm]
      | null => simp [asmEntryApply, hfd]
      | bool b => simp [asmEntryApply, hfd]
      | num n => simp [asmEntryApply, hfd]
      | str s => simp [asmEntryApply, hfd]
      | arr ys => simp [asmEntryApply, hfd]
  | null => rfl
  | bool b => rfl
  | num n => rfl
  | str s => rfl
  | arr xs => rfl

theorem map_map_roundtrip {f g : Json → Json} (xs : List Json)
    (h : ∀ e ∈ xs, g (f e) = e) : (xs.map f).map g = xs := by
  induction xs with
  | nil => rfl
  | cons e rest ih =>
    simp only [List.map_cons, List.cons.injEq]
    exact ⟨h e (List.mem_cons_self _ _), ih (fun x hx => h x (List.mem_cons_of_mem _ hx))⟩

theorem renameDocField_arr_roundtrip (step1 step2 : Json → Except PyErr (Json × Nat))
    (f1 f2 : Json → Json) (c1 c2 : Json → Nat) (field : String)
    (fs : List (String × Json)) (xs : List Json)
    (hne : fs ≠ []) (hlk : lookupField fs field = some (.arr xs))
    (hstep1 : ∀ e ∈ xs, step1 e = .ok (f1 e, c1 e))
    (hstep2 : ∀ e ∈ xs.map f1, step2 e = .ok (f2 e, c2 e))
    (hrt : ∀ e ∈ xs, f2 (f1 e) = e) :
    (renameDocField step1 field (.obj fs)).2.2 = none
    ∧ (renameDocField step2 field (renameDocField step1 field (.obj fs)).1).2.2 = none
    ∧ (renameDocField step2 field (renameDocField step1 field (.obj fs)).1).1 = .obj fs := by
  have h1 := renameDocField_arr step1 field fs xs f1 c1 hne hlk hstep1
  have hne1 := setField_ne_nil fs field (.arr (xs.map f1))
  have hlk1 : lookupField (setField fs field (.arr (xs.map f1))) field
      = some (.arr (xs.map f1)) := lookupField_setField_self _ _ _
  have h2 := renameDocField_arr step2 field _ (xs.map f1) f2 c2 hne1 hlk1 hstep2
  have h1a : (renameDocField step1 field (.obj fs)).1
      = .obj (setField fs field (.arr (xs.map f1))) := by rw [h1]
  have h1b : (renameDocField step1 field (.obj fs)).2.2 = none := by rw [h1]
  refine ⟨h1b, ?_, ?_⟩
  · rw [h1a, h2]
  · rw [h1a, h2, map_map_roundtrip xs hrt]
    simp only
    rw [setField_restore fs field (.arr xs) (.arr (xs.map f1)) hlk]

theorem renameMateValuesDoc_roundtrip (m : RenameMap) (j : Json)
    (hwf : wfMateValuesDoc j = true)
    (hvals : (m.map (fun p => p.2)).Nodup)
    (hfresh : ∀ s ∈ rawMvNames j, s ∉ m.map (fun p => p.2)) :
    (renameMateValuesDoc m j).2.2 = none
    ∧ (renameMateValuesDoc (invMap m) (renameMateValuesDoc m j).1).2.2 = none
    ∧ (renameMateValuesDoc (invMap m) (renameMateValuesDoc m j).1).1 = j := by
  by_cases htr : pyTruthy j = true
  · cases j with
    | obj fs =>
      have hne := pyTruthy_obj_ne_nil_inv fs htr
      cases hlk : lookupField fs "mateValues" with
      | none =>
        have h1 : renameMateValuesDoc m (.obj fs) = (.obj fs, 0, none) := by
          rw [renameMateValuesDoc]
          exact renameDocField_nofield _ _ _ hne hlk
        have h2 : renameMateValuesDoc (invMap m) (.obj fs) = (.obj fs, 0, none) := by
          rw [renameMateValuesDoc]
          exact renameDocField_nofield _ _ _ hne hlk
        rw [h1]
        exact ⟨rfl, by rw [h2], by rw [h2]⟩
      | some v =>
        cases v with
        | arr xs =>
          have hall : xs.all wfMateEntry = true := by
            simpa [wfMateValuesDoc, htr, hlk] using hwf
          have hall1 : (xs.map (mvEntryApply m)).all wfMateEntry = true :=
            all_map_of_all (wfMateEntry_apply m) xs hall
          have hstep1 : ∀ e ∈ xs,
              renameMateEntry m e = .ok (mvEntryApply m e, mvEntryCount m e) :=
            fun e he => renameMateEntry_eq m e (List.all_eq_true.mp hall e he)
          have hstep2 : ∀ e ∈ xs.map (mvEntryApply m),
              renameMateEntry (invMap m) e
                = .ok (mvEntryApply (invMap m) e, mvEntryCount (invMap m) e) :=
            fun e he => renameMateEntry_eq _ e (List.all_eq_true.mp hall1 e he)
          have hrt : ∀ e ∈ xs, mvEntryApply (invMap m) (mvEntryApply m e) = e := by
            intro e he
            refine mvEntry_roundtrip m e hvals (fun s hss => hfresh s ?_)
            simp only [rawMvNames, hlk]
            exact List.mem_filterMap.mpr ⟨e, he, hss⟩
          have := renameDocField_arr_roundtrip (renameMateEntry m)
            (renameMateEntry (invMap m)) (mvEntryApply m) (mvEntryApply (invMap m))
            (mvEntryCount m) (mvEntryCount (invMap m)) "mateValues" fs xs hne hlk
            hstep1 hstep2 hrt
          exact this
        | null => simp [wfMateValuesDoc, htr, hlk] at hwf
        | bool b => simp [wfMateValuesDoc, htr, hlk] at hwf
        | num n => simp [wfMateValuesDoc, htr, hlk] at hwf
        | str s => simp [wfMateValuesDoc, htr, hlk] at hwf
        | obj gs => simp [wfMateValuesDoc, htr, hlk] at hwf
    | null => simp [pyTruthy] at htr
    | bool b => simp [wfMateValuesDoc, htr] at hwf
    | num n => simp [wfMateValuesDoc, htr] at hwf
    | str s => simp [wfMateValuesDoc, htr] at hwf
    | arr xs => simp [wfMateValuesDoc, htr] at hwf
  · have h0 : pyTruthy j = false := by simpa using htr
    have h1 : renameMateValuesDoc m j = (j, 0, none) := by
      rw [renameMateValuesDoc]
      exact renameDocField_falsy _ _ _ h0
    have h2 : renameMateValuesDoc (invMap m) j = (j, 0, none) := by
      rw [renameMateValuesDoc]
      exact renameDocField_falsy _ _ _ h0
    rw [h1]
    exact ⟨rfl, by rw [h2], by rw [h2]⟩

theorem renameFeaturesDoc_roundtrip (m : RenameMap) (j : Json)
    (hwf : wfFeaturesDoc j = true)
    (hvals : (m.map (fun p => p.2)).Nodup)
    (hfresh : ∀ s ∈ rawFtNames j, s ∉ m.map (fun p => p.2)) :
    (renameFeaturesDoc m j).2.2 = none
    ∧ (renameFeaturesDoc (invMap m) (renameFeaturesDoc m j).1).2.2 = none
    ∧ (renameFeaturesDoc (invMap m) (renameFeaturesDoc m j).1).1 = j := by
  by_cases htr : pyTruthy j = true
  · cases j with
    | obj fs =>
      have hne := pyTruthy_obj_ne_nil_inv fs htr
      cases hlk : lookupField fs "features" with
      | none =>
        have h1 : renameFeaturesDoc m (.obj fs) = (.obj fs, 0, none) := by
          rw [renameFeaturesDoc]
          exact renameDocField_nofield _ _ _ hne hlk
        have h2 : renameFeaturesDoc (invMap m) (.obj fs) = (.obj fs, 0, none) := by
          rw [renameFeaturesDoc]
          exact renameDocField_nofield _ _ _ hne hlk
        rw [h1]
        exact ⟨rfl, by rw [h2], by rw [h2]⟩
      | some v =>
        cases v with
        | arr xs =>
          have hall : xs.all wfFeatureEntry = true := by
            simpa [wfFeaturesDoc, htr, hlk] using hwf
          have hall1 : (xs.map (ftEntryApply m)).all wfFeatureEntry = true :=
            all_map_of_all (wfFeatureEntry_apply m) xs hall
          have hstep1 : ∀ e ∈ xs,
              renameFeatureEntry m e = .ok (ftEntryApply m e, ftEntryCount m e) :=
            fun e he => renameFeatureEntry_eq m e (List.all_eq_true.mp hall e he)
          have hstep2 : ∀ e ∈ xs.map (ftEntryApply m),
              renameFeatureEntry (invMap m) e
                = .ok (ftEntryApply (invMap m) e, ftEntryCount (invMap m) e) :=
            fun e he => renameFeatureEntry_eq _ e (List.all_eq_true.mp hall1 e he)
          have hrt : ∀ e ∈ xs, ftEntryApply (invMap m) (ftEntryApply m e) = e := by
            intro e he
            refine ftEntry_roundtrip m e hvals (fun s hss => hfresh s ?_)
            simp only [rawFtNames, hlk]
            exact List.mem_filterMap.mpr ⟨e, he, hss⟩
          exact renameDocField_arr_roundtrip (renameFeatureEntry m)
            (renameFeatureEntry (invMap m)) (ftEntryApply m) (ftEntryApply (invMap m))
            (ftEntryCount m) (ftEntryCount (invMap m)) "features" fs xs hne hlk
            hstep1 hstep2 hrt
        | null => simp [wfFeaturesDoc, htr, hlk] at hwf
        | bool b => simp [wfFeaturesDoc, htr, hlk] at hwf
        | num n => simp [wfFeaturesDoc, htr, hlk] at hwf
        | str s => simp [wfFeaturesDoc, htr, hlk] at hwf
        | obj gs => simp [wfFeaturesDoc, htr, hlk] at hwf
    | null => simp [pyTruthy] at htr
    | bool b => simp [wfFeaturesDoc, htr] at hwf
    | num n => simp [wfFeaturesDoc, htr] at hwf
    | str s => simp [wfFeaturesDoc, htr] at hwf
    | arr xs => simp [wfFeaturesDoc, htr] at hwf
  · have h0 : pyTruthy j = false := by simpa using htr
    have h1 : renameFeaturesDoc m j = (j, 0, none) := by
      rw [renameFeaturesDoc]
      exact renameDocField_falsy _ _ _ h0
    have h2 : renameFeaturesDoc (invMap m) j = (j, 0, none) := by
      rw [renameFeaturesDoc]
      exact renameDocField_falsy _ _ _ h0
    rw [h1]
    exact ⟨rfl, by rw [h2], by rw [h2]⟩

theorem renameAssemblyDoc_arr (m : RenameMap) (fs rs : List (String × Json))
    (xs : List Json) (hne : fs ≠ [])
    (hra : lookupField fs "rootAssembly" = some (.obj rs))
    (hfk : lookupField rs "features" = some (.arr xs))
    (hstep : ∀ e ∈ xs, renameAssemblyEntry m e = .ok (asmEntryApply m e, asmEntryCount m e)) :
    renameAssemblyDoc m (.obj fs)
      = (.obj (setField fs "rootAssembly"
          (.obj (setField rs "features" (.arr (xs.map (asmEntryApply m)))))),
         (xs.map (asmEntryCount m)).sum, none) := by
  have hfold := renameEntriesFold_ok (renameAssemblyEntry m)
    (asmEntryApply m) (asmEntryCount m) xs hstep
  simp [renameAssemblyDoc, pyTruthy_obj_ne_nil fs hne, hra, hfk, pyIter, hfold]

theorem renameAssemblyDoc_roundtrip (m : RenameMap) (j : Json)
    (hwf : wfAssemblyDoc j = true)
    (hvals : (m.map (fun p => p.2)).Nodup)
    (hfresh : ∀ s ∈ rawAsmNames j, s ∉ m.map (fun p => p.2)) :
    (renameAssemblyDoc m j).2.2 = none
    ∧ (renameAssemblyDoc (invMap m) (renameAssemblyDoc m j).1).2.2 = none
    ∧ (renameAssemblyDoc (invMap m) (renameAssemblyDoc m j).1).1 = j := by
  by_cases htr : pyTruthy j = true
  · cases j with
    | obj fs =>
      have hne := pyTruthy_obj_ne_nil_inv fs htr
      cases hra : lookupField fs "rootAssembly" with
      | none =>
        have h1 : renameAssemblyDoc m (.obj fs) = (.obj fs, 0, none) := by
          simp [renameAssemblyDoc, pyTruthy_obj_ne_nil fs hne, hra, lookupField]
        have h2 : renameAssemblyDoc (invMap m) (.obj fs) = (.obj fs, 0, none) := by
          simp [renameAssemblyDoc, pyTruthy_obj_ne_nil fs hne, hra, lookupField]
        rw [h1]
        exact ⟨rfl, by rw [h2], by rw [h2]⟩
      | some v =>
        cases v with
        | obj rs =>
          cases hfk : lookupField rs "features" with
          | none =>
            have h1 : renameAssemblyDoc m (.obj fs) = (.obj fs, 0, none) := by
              simp [renameAssemblyDoc, pyTruthy_obj_ne_nil fs hne, hra, hfk]
            have h2 : renameAssemblyDoc (invMap m) (.obj fs) = (.obj fs, 0, none) := by
              simp [renameAssemblyDoc, pyTruthy_obj_ne_nil fs hne, hra, hfk]
            rw [h1]
            exact ⟨rfl, by rw [h2], by rw [h2]⟩
          | some v2 =>
            cases v2 with
            | arr xs =>
              have hall : xs.all wfAssemblyEntry = true := by
                simpa [wfAssemblyDoc, htr, hra, hfk] using hwf
              have hall1 : (xs.map (asmEntryApply m)).all wfAssemblyEntry = true :=
                all_map_of_all (wfAssemblyEntry_apply m) xs hall
              have hstep1 : ∀ e ∈ xs,
                  renameAssemblyEntry m e = .ok (asmEntryApply m e, asmEntryCount m e) :=
                fun e he => renameAssemblyEntry_eq m e (List.all_eq_true.mp hall e he)
              have hstep2 : ∀ e ∈ xs.map (asmEntryApply m),
                  renameAssemblyEntry (invMap m) e
                    = .ok (asmEntryApply (invMap m) e, asmEntryCount (invMap m) e) :=
                fun e he => renameAssemblyEntry_eq _ e (List.all_eq_true.mp hall1 e he)
              have hrt : ∀ e ∈ xs, asmEntryApply (invMap m) (asmEntryApply m e) = e := by
                intro e he
                refine asmEntry_roundtrip m e hvals (fun s hss => hfresh s ?_)
                simp only [rawAsmNames, hra, Option.getD_some, hfk]
                exact List.mem_filterMap.mpr ⟨e, he, hss⟩
              have h1 := renameAssemblyDoc_arr m fs rs xs hne hra hfk hstep1
              have hne1 := setField_ne_nil fs "rootAssembly"
                (.obj (setField rs "features" (.arr (xs.map (asmEntryApply m)))))
              have hra1 : lookupField (setField fs "rootAssembly"
                  (.obj (setField rs "features" (.arr (xs.map (asmEntryApply m)))))) "rootAssembly"
                  = some (.obj (setField rs "features" (.arr (xs.map (asmEntryApply m))))) :=
                lookupField_setField_self _ _ _
              have hfk1 : lookupField (setField rs "features" (.arr (xs.map (asmEntryApply m)))) "features"
                  = some (.arr (xs.map (asmEntryApply m))) :=
                lookupField_setField_self _ _ _
              have h2 := renameAssemblyDoc_arr (invMap m) _ _ (xs.map (asmEntryApply m))
                hne1 hra1 hfk1 hstep2
              have h1a : (renameAssemblyDoc m (.obj fs)).1
                  = .obj (setField fs "rootAssembly"
                      (.obj (setField rs "features" (.arr (xs.map (asmEntryApply m)))))) := by
                rw [h1]
              refine ⟨by rw [h1], ?_, ?_⟩
              · rw [h1a, h2]
              · rw [h1a, h2, map_map_roundtrip xs hrt]
                simp only
                rw [setField_restore rs "features" (.arr xs) _ hfk,
                  setField_restore fs "rootAssembly" (.obj rs) _ hra]
            | null => simp [wfAssemblyDoc, htr, hra, hfk] at hwf
            | bool b => simp [wfAssemblyDoc, htr, hra, hfk] at hwf
            | num n => simp [wfAssemblyDoc, htr, hra, hfk] at hwf
            | str s => simp [wfAssemblyDoc, htr, hra, hfk] at hwf
            | obj gs => simp [wfAssemblyDoc, htr, hra, hfk] at hwf
        | null => simp [wfAssemblyDoc, htr, hra] at hwf
        | bool b => simp [wfAssemblyDoc, htr, hra] at hwf
        | num n => simp [wfAssemblyDoc, htr, hra] at hwf
        | str s => simp [wfAssemblyDoc, htr, hra] at hwf
        | arr ys => simp [wfAssemblyDoc, htr, hra] at hwf
    | null => simp [pyTruthy] at htr
    | bool b => simp [wfAssemblyDoc, htr] at hwf
    | num n => simp [wfAssemblyDoc, htr] at hwf
    | str s => simp [wfAssemblyDoc, htr] at hwf
    | arr xs => simp [wfAssemblyDoc, htr] at hwf
  · have h0 : pyTruthy j = false := by simpa using htr
    have h1 : renameAssemblyDoc m j = (j, 0, none) := renameAssemblyDoc_falsy m j h0
    have h2 : renameAssemblyDoc (invMap m) j = (j, 0, none) := renameAssemblyDoc_falsy _ j h0
    rw [h1]
    exact ⟨rfl, by rw [h2], by rw [h2]⟩

/-- C7 (amended): for an injective rename map (pairwise distinct new names)
whose values are fresh — no new name already occurs as an identifier
anywhere in the three well-formed documents — applying the map and then the
inverse map (new name back to old name) succeeds and restores all three
documents exactly, hence every extracted occurrence list. Without the
freshness condition the round trip fails; see the counterexample. -/
theorem c7_roundtrip_with_fresh_values (m : RenameMap) (d : Docs)
    (hwf : wfDocs d = true)
    (hvals : (m.map (fun p => p.2)).Nodup)
    (hfresh : ∀ p ∈ m, p.2 ∉ rawNames d) :
    (apply_renames m d).err = none
    ∧ (apply_renames (invMap m) (apply_renames m d).docs).err = none
    ∧ (apply_renames (invMap m) (apply_renames m d).docs).docs = d
    ∧ extract_mate_names (apply_renames (invMap m) (apply_renames m d).docs).docs
        = extract_mate_names d := by
  obtain ⟨dm, df, da⟩ := d
  have hfr : ∀ s, (s ∈ rawMvNames dm ∨ s ∈ rawFtNames df ∨ s ∈ rawAsmNames da) →
      s ∉ m.map (fun p => p.2) := by
    intro s hs hv
    obtain ⟨p, hp, hv2⟩ := List.mem_map.mp hv
    refine hfresh p hp ?_
    rw [hv2]
    simp only [rawNames, List.mem_append]
    tauto
  have hwf3 : (wfMateValuesDoc dm && wfFeaturesDoc df && wfAssemblyDoc da) = true := hwf
  rw [Bool.and_eq_true, Bool.and_eq_true] at hwf3
  obtain ⟨⟨hw1, hw2⟩, hw3⟩ := hwf3
  obtain ⟨ha1, hb1, hc1⟩ := renameMateValuesDoc_roundtrip m dm hw1 hvals
    (fun s hs => hfr s (Or.inl hs))
  obtain ⟨ha2, hb2, hc2⟩ := renameFeaturesDoc_roundtrip m df hw2 hvals
    (fun s hs => hfr s (Or.inr (Or.inl hs)))
  obtain ⟨ha3, hb3, hc3⟩ := renameAssemblyDoc_roundtrip m da hw3 hvals
    (fun s hs => hfr s (Or.inr (Or.inr hs)))
  rcases hmv : renameMateValuesDoc m dm with ⟨mv1, cc1, ee1⟩
  rcases hft : renameFeaturesDoc m df with ⟨ft1, cc2, ee2⟩
  rcases hasm : renameAssemblyDoc m da with ⟨asm1, cc3, ee3⟩
  rw [hmv] at ha1 hb1 hc1
  rw [hft] at ha2 hb2 hc2
  rw [hasm] at ha3 hb3 hc3
  simp only at ha1 hb1 hc1 ha2 hb2 hc2 ha3 hb3 hc3
  subst ha1 ha2 ha3
  rcases hmv2 : renameMateValuesDoc (invMap m) mv1 with ⟨mv2, dd1, ff1⟩
  rcases hft2 : renameFeaturesDoc (invMap m) ft1 with ⟨ft2, dd2, ff2⟩
  rcases hasm2 : renameAssemblyDoc (invMap m) asm1 with ⟨asm2, dd3, ff3⟩
  rw [hmv2] at hb1 hc1
  rw [hft2] at hb2 hc2
  rw [hasm2] at hb3 hc3
  simp only at hb1 hc1 hb2 hc2 hb3 hc3
  subst hb1 hb2 hb3
  subst hc1 hc2 hc3
  have happ1 : apply_renames m ⟨mv2, ft2, asm2⟩
      = ⟨⟨mv1, ft1, asm1⟩, cc1, cc2, cc3, none⟩ := by
    simp [apply_renames, hmv, hft, hasm]
  have happ2 : apply_renames (invMap m) ⟨mv1, ft1, asm1⟩
      = ⟨⟨mv2, ft2, asm2⟩, dd1, dd2, dd3, none⟩ := by
    simp [apply_renames, hmv2, hft2, hasm2]
  rw [happ1]
  simp only
  rw [happ2]
  exact ⟨trivial, rfl, rfl, rfl⟩

def mvDocTwo : Json :=
  .obj [("mateValues", .arr [.obj [("mateName", .str "A")], .obj [("mateName", .str "B")]])]

def docsTwo : Docs := ⟨mvDocTwo, emptyObj, emptyObj⟩

/-- Counterexample to C7 as stated: the injective map A ↦ B has its key in
the name universe, yet because the value B already names another mate,
apply then inverse-apply turns the occurrence list [A, B] into [A, A] — not
a permutation of the original multiset. -/
theorem c7_counterexample :
    (mapAB.map (fun p => p.1)).Nodup
    ∧ (mapAB.map (fun p => p.2)).Nodup
    ∧ extract_mate_names docsTwo = .ok (["A", "B"], [], [])
    ∧ (apply_renames mapAB docsTwo).err = none
    ∧ (apply_renames (invMap mapAB) (apply_renames mapAB docsTwo).docs).err = none
    ∧ extract_mate_names
        (apply_renames (invMap mapAB) (apply_renames mapAB docsTwo).docs).docs
        = .ok (["A", "A"], [], [])
    ∧ ¬(["A", "A"] : List String).Perm ["A", "B"] :=
  ⟨by decide, by decide, rfl, rfl, rfl, rfl, by decide⟩

def mapAZ : RenameMap := [("A", "Z")]

/-- Witness for C7 (amended) at a concrete input with a fresh new name. -/
theorem c7_witness :
    (apply_renames (invMap mapAZ) (apply_renames mapAZ docsTwo).docs).docs = docsTwo :=
  (c7_roundtrip_with_fresh_values mapAZ docsTwo (by decide) (by decide)
    (by decide)).2.2.1

/-! ## URDF save paths (backup policy)

The URDF file and its .backup sibling on disk; contents are byte strings. -/

structure UrdfFS where
  file : Option String
  backup : Option String
deriving DecidableEq

/-- save_urdf with create_backup=True and the default output file
(src/augmented_tools/remove_duplicate_links.py lines 178-192): read the
current file and write its contents to the .backup file, then overwrite
the original with the serialized tree. If reading the original fails, the
exception aborts the save before any write: the filesystem is unchanged
and the flag is false. -/
def save_urdf (fs : UrdfFS) (serialized : String) : UrdfFS × Bool :=
  match fs.file with
  | none => (fs, false)
  | some content => ({ file := some serialized, backup := some content }, true)

/-- The save performed by the remove_duplicate_links flow of
src/tools/remove_duplicate_links.py line 324: save_urdf(create_backup=False)
overwrites the original and writes no backup at all. -/
def save_urdf_no_backup (fs : UrdfFS) (serialized : String) : UrdfFS :=
  { fs with file := some serialized }

/-- Counterexample to C9 as stated: the tools-version remove_duplicate_links
flow persists its mutation by overwriting the URDF with no backup written
first — a persisting mutation without a byte-identical backup. -/
theorem c9_counterexample :
    (save_urdf_no_backup ⟨some "old", none⟩ "new").file = some "new"
    ∧ (save_urdf_no_backup ⟨some "old", none⟩ "new").backup = none
    ∧ "new" ≠ "old" := ⟨rfl, rfl, by decide⟩

/-- C9 (amended): the augmented tool's save path (create_backup=True,
in-place) writes a byte-identical copy of the pre-mutation file to the
backup before overwriting, and if the backup step fails (the original
cannot be read) the overwrite never happens and the filesystem is left
unchanged. The interactive tools-version flow, by contrast, saves with
create_backup=False and overwrites without any backup. -/
theorem c9_backup_then_overwrite (fs : UrdfFS) (serialized : String) :
    ((save_urdf fs serialized).2 = true →
      (save_urdf fs serialized).1.backup = fs.file
        ∧ (save_urdf fs serialized).1.file = some serialized)
    ∧ ((save_urdf fs serialized).2 = false → (save_urdf fs serialized).1 = fs)
    ∧ ((save_urdf_no_backup fs serialized).backup = fs.backup
        ∧ (save_urdf_no_backup fs serialized).file = some serialized) := by
  cases hf : fs.file with
  | none =>
    refine ⟨?_, ?_, rfl, rfl⟩
    · intro h
      simp [save_urdf, hf] at h
    · intro _
      simp [save_urdf, hf]
  | some content =>
    refine ⟨?_, ?_, rfl, rfl⟩
    · intro _
      simp [save_urdf, hf]
    · intro h
      simp [save_urdf, hf] at h

/-- Witness for C9 (amended) at a concrete filesystem. -/
theorem c9_witness :
    (save_urdf ⟨some "old", none⟩ "new").1.backup = some "old"
    ∧ (save_urdf ⟨some "old", none⟩ "new").1.file = some "new" :=
  (c9_backup_then_overwrite ⟨some "old", none⟩ "new").1 rfl

end CadToRobot
